import Mathlib

set_option maxHeartbeats 1000000

/-
Shallow embedding of the credential-rotation / cooldown / model-fallback
execution engine of the EGO backend (core/llm_backend.py) and the
context-shrink retry policy layered on top of it (core/agent.py).

Modelling conventions:
- api keys, model names and text are Lean String values;
- time instants and durations (Python floats from time.monotonic) are ℚ;
- the cooldown dict self._cooldown_until with .get((key, model), 0.0) is a
  total function String × String → ℚ with default 0;
- transport calls are oracles (String → String → outcome) supplied as
  parameters, one outcome per (api key, model name) pair;
- asynchronous generators are functions returning the list of yielded items;
- time advances only at the explicit asyncio.sleep(0.5) in the pinned-key
  waiting branch; transport calls are modelled as instantaneous.
-/

namespace EgoSpec

/-- Rotation state of EgoGeminiProvider: the key pool (clients_pool),
the per-(api_key, model_name) cooldown map (_cooldown_until, as a total
function with default 0.0) and the round-robin cursor (_rotator_index). -/
structure ProviderState where
  pool : List String
  cooldown : String × String → ℚ
  rotor : ℕ

/-- Cooldown durations: GEMINI_KEY_COOLDOWN_SECONDS (long, for quota and
rate-limit failures) and GEMINI_TRANSIENT_COOLDOWN_SECONDS (short). -/
structure Config where
  quotaCooldownSeconds : ℚ
  transientCooldownSeconds : ℚ

/-- The environment-variable defaults: 60 seconds long, 5 seconds short. -/
def defaultConfig : Config := ⟨60, 5⟩

/-- EgoGeminiProvider._mark_on_cooldown:
self._cooldown_until[(api_key, model_name)] = self._now() + seconds. -/
def markOnCooldown (st : ProviderState) (apiKey modelName : String) (now seconds : ℚ) :
    ProviderState :=
  { st with
    cooldown := fun q => if q = (apiKey, modelName) then now + seconds else st.cooldown q }

/-- The api key stored at a pool index (clients_pool[idx][0]). -/
def keyAt (st : ProviderState) (idx : ℕ) : String :=
  st.pool.getD idx ""

/-- The body of the round-robin scan of _next_ready_client: walk the given
pool indices in order, return the first whose (key, model) cooldown has
expired, while accumulating the earliest cooldown end seen so far
(earliest_available_time). -/
def nrScan (st : ProviderState) (modelName : String) (now : ℚ) :
    List ℕ → Option ℚ → Option (ℕ × String) × Option ℚ
  | [], earliest => (none, earliest)
  | idx :: rest, earliest =>
    let key := keyAt st idx
    let cooldownEnd := st.cooldown (key, modelName)
    if cooldownEnd ≤ now then (some (idx, key), earliest)
    else
      nrScan st modelName now rest
        (some (match earliest with
               | none => cooldownEnd
               | some e => min e cooldownEnd))

/-- The index sequence (self._rotator_index + i) % self.pool_size
for i in range(self.pool_size). -/
def scanIdxs (poolSize rotor : ℕ) : List ℕ :=
  (List.range poolSize).map (fun i => (rotor + i) % poolSize)

/-- EgoGeminiProvider._next_ready_client: scan the pool round-robin from the
rotor, return the first client not on cooldown for this model and advance the
rotor just past it; otherwise return no candidate plus the minimum remaining
wait (0.5 when the pool is empty of cooldown entries). -/
def nextReadyClient (st : ProviderState) (modelName : String) (now : ℚ) :
    Option (ℕ × String) × ℚ × ProviderState :=
  match nrScan st modelName now (scanIdxs st.pool.length st.rotor) none with
  | (some (idx, key), _) =>
    (some (idx, key), 0, { st with rotor := (idx + 1) % st.pool.length })
  | (none, earliest) =>
    let waitTime :=
      match earliest with
      | some e => max 0 (e - now)
      | none => 1 / 2
    (none, waitTime, st)

/-- The keys of the pool in the order _next_ready_client scans them. -/
def scanKeys (st : ProviderState) : List String :=
  (scanIdxs st.pool.length st.rotor).map (keyAt st)

/-- Whether a key is out of cooldown for a model at an instant. -/
def readyB (cd : String × String → ℚ) (modelName : String) (now : ℚ) (key : String) : Bool :=
  decide (cd (key, modelName) ≤ now)

/-- n successive calls of _next_ready_client for one model, threading the
provider state; returns the list of candidates in call order. -/
def iterNextReady (modelName : String) (now : ℚ) :
    ℕ → ProviderState → List (Option (ℕ × String)) × ProviderState
  | 0, st => ([], st)
  | n + 1, st =>
    let sel := nextReadyClient st modelName now
    let rest := iterNextReady modelName now n sel.2.2
    (sel.1 :: rest.1, rest.2)

/-- Outcome of one transport call (execution_func) as classified by the
except-clauses of _execute_with_retries_and_fallbacks: success carries the
response text and optional usage counters; the failure constructors mirror
ResourceExhausted / PermissionDenied, genai_errors.ClientError (with its
optional numeric code and whether the message contains "429" /
"RESOURCE_EXHAUSTED"), ServerError / ServiceUnavailable, and the generic
except Exception. -/
inductive CallOutcome where
  | ok (text : String) (usage : Option (ℕ × ℕ × ℕ))
  | resourceExhausted
  | permissionDenied
  | clientError (code : Option ℕ) (has429 : Bool) (hasResourceExhausted : Bool)
  | serverError
  | unknownExc
deriving DecidableEq

/-- Whether the transport call succeeded. -/
def CallOutcome.isOk : CallOutcome → Bool
  | .ok _ _ => true
  | _ => false

/-- Cooldown duration applied by _execute_with_retries_and_fallbacks to each
failure class: quota/permission and rate-limit (429 / RESOURCE_EXHAUSTED
client errors) get the long cooldown, everything else the short one.
For ClientError the code mirrors: error_code = getattr code/status_code;
if falsy and the message holds "429" or "RESOURCE_EXHAUSTED", 429; the long
cooldown applies when error_code == 429 or "RESOURCE_EXHAUSTED" in str(e). -/
def cooldownSeconds (cfg : Config) : CallOutcome → ℚ
  | .ok _ _ => 0
  | .resourceExhausted => cfg.quotaCooldownSeconds
  | .permissionDenied => cfg.quotaCooldownSeconds
  | .clientError code has429 hasRE =>
    let effCode : Option ℕ :=
      match code with
      | some c => if c ≠ 0 then some c else if has429 || hasRE then some 429 else none
      | none => if has429 || hasRE then some 429 else none
    if effCode = some 429 ∨ hasRE = true then cfg.quotaCooldownSeconds
    else cfg.transientCooldownSeconds
  | .serverError => cfg.transientCooldownSeconds
  | .unknownExc => cfg.transientCooldownSeconds

/-- One recorded transport attempt: (model name, api key, time of the call). -/
abbrev Attempt := String × String × ℚ

/-- Result of running the per-model while-loop (and, reused, the whole model
chain): optional success (response text, usage, api key that served it), the
transport attempts in order, and the final state / clock / last_exception. -/
structure ModelRunResult where
  success : Option ((String × Option (ℕ × ℕ × ℕ)) × String)
  attempts : List Attempt
  state : ProviderState
  now : ℚ
  lastExc : Option CallOutcome

/-- The truthiness guard `if pinned_key and pinned_key not in tried_keys`. -/
def pinnedActive (pinnedKey : Option String) (tried : List String) : Option String :=
  match pinnedKey with
  | some p => if p ≠ "" ∧ p ∉ tried then some p else none
  | none => none

/-- The inner while-loop of _execute_with_retries_and_fallbacks for one model:
while len(tried_keys) < pool_size, prefer a live pinned key (waiting in 0.5 s
sleeps while its remaining cooldown is at most 5 s, else skipping the pin for
this model), otherwise take _next_ready_client; run the call, classify the
failure, mark the cooldown and loop. Fuel bounds the number of iterations;
running out of fuel behaves like abandoning the model. -/
def tryModel (cfg : Config) (call : String → String → CallOutcome)
    (pinnedKey : Option String) (modelName : String) :
    ℕ → ProviderState → List String → ℚ → Option CallOutcome → ModelRunResult
  | 0, st, _tried, now, lastExc => ⟨none, [], st, now, lastExc⟩
  | fuel + 1, st, tried, now, lastExc =>
    if st.pool.length ≤ tried.length then ⟨none, [], st, now, lastExc⟩
    else
      match pinnedActive pinnedKey tried with
      | some p =>
        if p ∈ st.pool then
          let cooldownEnd := st.cooldown (p, modelName)
          if cooldownEnd ≤ now then
            match call p modelName with
            | CallOutcome.ok text usage =>
              ⟨some ((text, usage), p), [(modelName, p, now)], st, now, lastExc⟩
            | outc =>
              let st2 := markOnCooldown st p modelName now (cooldownSeconds cfg outc)
              let r := tryModel cfg call pinnedKey modelName fuel st2 (tried ++ [p]) now (some outc)
              ⟨r.success, (modelName, p, now) :: r.attempts, r.state, r.now, r.lastExc⟩
          else
            let waitTime := max 0 (cooldownEnd - now)
            if 5 < waitTime then
              tryModel cfg call pinnedKey modelName fuel st (tried ++ [p]) now lastExc
            else
              tryModel cfg call pinnedKey modelName fuel st tried (now + 1 / 2) lastExc
        else
          tryModel cfg call pinnedKey modelName fuel st tried (now + 1 / 2) lastExc
      | none =>
        let sel := nextReadyClient st modelName now
        match sel.1 with
        | some (_idx, k) =>
          if k ∈ tried then ⟨none, [], sel.2.2, now, lastExc⟩
          else
            match call k modelName with
            | CallOutcome.ok text usage =>
              ⟨some ((text, usage), k), [(modelName, k, now)], sel.2.2, now, lastExc⟩
            | outc =>
              let st3 := markOnCooldown sel.2.2 k modelName now (cooldownSeconds cfg outc)
              let r := tryModel cfg call pinnedKey modelName fuel st3 (tried ++ [k]) now (some outc)
              ⟨r.success, (modelName, k, now) :: r.attempts, r.state, r.now, r.lastExc⟩
        | none => ⟨none, [], sel.2.2, now, lastExc⟩

/-- The outer for-loop of _execute_with_retries_and_fallbacks over the model
chain: each model starts with a fresh tried_keys set; on success the cascade
short-circuits. -/
def execChain (cfg : Config) (call : String → String → CallOutcome)
    (pinnedKey : Option String) :
    List String → ℕ → ProviderState → ℚ → Option CallOutcome → ModelRunResult
  | [], _fuel, st, now, lastExc => ⟨none, [], st, now, lastExc⟩
  | modelName :: restModels, fuel, st, now, lastExc =>
    let r := tryModel cfg call pinnedKey modelName fuel st [] now lastExc
    match r.success with
    | some s => ⟨some s, r.attempts, r.state, r.now, r.lastExc⟩
    | none =>
      let r2 := execChain cfg call pinnedKey restModels fuel r.state r.now r.lastExc
      ⟨r2.success, r.attempts ++ r2.attempts, r2.state, r2.now, r2.lastExc⟩

/-- Result of a whole orchestration call: Except.ok on success, otherwise
Except.error (some lastException), or Except.error none standing for the
RuntimeError("Cascade exhausted.") raised when no failure was observed. -/
structure ExecResult where
  outcome : Except (Option CallOutcome) (String × Option (ℕ × ℕ × ℕ))
  attempts : List Attempt
  state : ProviderState
  lastUsedKey : Option String
  now : ℚ

/-- EgoGeminiProvider._execute_with_retries_and_fallbacks: build
model_chain = [preferred_model] + FALLBACK_CHAINS.get(preferred_model, []),
read the request-scoped pinned key, try every model in order and raise the
last observed failure after total exhaustion. -/
def executeWithRetriesAndFallbacks (cfg : Config) (call : String → String → CallOutcome)
    (chains : String → List String) (preferredModel : String)
    (pinnedKey : Option String) (fuel : ℕ) (st : ProviderState) (now : ℚ) : ExecResult :=
  let modelChain := preferredModel :: chains preferredModel
  let r := execChain cfg call pinnedKey modelChain fuel st now none
  match r.success with
  | some (res, key) => ⟨Except.ok res, r.attempts, r.state, some key, r.now⟩
  | none => ⟨Except.error r.lastExc, r.attempts, r.state, none, r.now⟩

/-- The FALLBACK_CHAINS class table of EgoGeminiProvider, as the function
m ↦ FALLBACK_CHAINS.get(m, []). -/
def FALLBACK_CHAINS : String → List String := fun m =>
  if m = "gemini-3-flash-preview" then
    ["gemini-flash-latest", "gemini-2.5-pro", "gemini-2.5-flash-lite"]
  else if m = "gemini-flash-latest" then ["gemini-2.5-pro", "gemini-2.5-flash-lite"]
  else if m = "gemini-2.5-pro" then ["gemini-2.5-flash-lite"]
  else if m = "gemini-2.5-flash" then
    ["gemini-flash-latest", "gemini-2.5-pro", "gemini-2.5-flash-lite"]
  else []

/-- The user-facing message EgoGeminiProvider.generate substitutes for any
exception escaping the retry cascade. -/
def serviceBusyMessage : String :=
  "Sorry, the service is currently experiencing high load. Please try again shortly."

/-- EgoGeminiProvider.generate: run the full retry/fallback cascade and, if it
still raises, swallow the exception and return the safe user-facing message
with no usage data. -/
def generate (cfg : Config) (call : String → String → CallOutcome)
    (chains : String → List String) (preferredModel : String)
    (pinnedKey : Option String) (fuel : ℕ) (st : ProviderState) (now : ℚ) :
    String × Option (ℕ × ℕ × ℕ) :=
  match (executeWithRetriesAndFallbacks cfg call chains preferredModel pinnedKey fuel st now).outcome with
  | Except.ok res => res
  | Except.error _ => (serviceBusyMessage, none)

/-- Outcome of one streaming transport attempt
(client.aio.models.generate_content_stream plus iteration): either the stream
completes yielding its fragments, or it raises after yielding a (possibly
empty) first part of them. The failure carries whether the exception was a
genai ClientError and whether str(e) holds "429" or "RESOURCE_EXHAUSTED". -/
inductive StreamCallResult where
  | ok (frags : List String)
  | fail (frags : List String) (isClientError : Bool) (has429orRE : Bool)
deriving DecidableEq

/-- Whether the streaming attempt completed without raising. -/
def StreamCallResult.isOk : StreamCallResult → Bool
  | .ok _ => true
  | .fail _ _ _ => false

/-- The fragments an attempt managed to yield before finishing or raising. -/
def fragsOf : StreamCallResult → List String
  | .ok f => f
  | .fail f _ _ => f

/-- Cooldown classification of generate_synthesis_stream: a ClientError whose
text holds "429"/"RESOURCE_EXHAUSTED" gets the long cooldown, any other
failure the short one. -/
def streamCooldownSeconds (cfg : Config) (isClientError has429orRE : Bool) : ℚ :=
  if isClientError then
    if has429orRE then cfg.quotaCooldownSeconds else cfg.transientCooldownSeconds
  else cfg.transientCooldownSeconds

/-- The inner while-loop of generate_synthesis_stream for one model: rotate
through ready keys, forward every fragment the attempt yields (including
fragments yielded before a mid-stream exception), mark failed keys on cooldown
and retry with the next key. Returns (stream finished, yielded fragments,
state). -/
def streamTryModel (cfg : Config) (scall : String → String → StreamCallResult)
    (modelName : String) :
    ℕ → ProviderState → List String → ℚ → Bool × List String × ProviderState
  | 0, st, _tried, _now => (false, [], st)
  | fuel + 1, st, tried, now =>
    if st.pool.length ≤ tried.length then (false, [], st)
    else
      let sel := nextReadyClient st modelName now
      match sel.1 with
      | some (_idx, k) =>
        if k ∈ tried then (false, [], sel.2.2)
        else
          match scall k modelName with
          | StreamCallResult.ok frags => (true, frags, sel.2.2)
          | StreamCallResult.fail frags isCE hr =>
            let st3 := markOnCooldown sel.2.2 k modelName now (streamCooldownSeconds cfg isCE hr)
            let r := streamTryModel cfg scall modelName fuel st3 (tried ++ [k]) now
            (r.1, frags ++ r.2.1, r.2.2)
      | none => (false, [], sel.2.2)

/-- The outer for-loop of generate_synthesis_stream over the model chain. -/
def streamChain (cfg : Config) (scall : String → String → StreamCallResult) :
    List String → ℕ → ProviderState → ℚ → Bool × List String × ProviderState
  | [], _fuel, st, _now => (false, [], st)
  | modelName :: restModels, fuel, st, now =>
    let r := streamTryModel cfg scall modelName fuel st [] now
    if r.1 then (true, r.2.1, r.2.2)
    else
      let r2 := streamChain cfg scall restModels fuel r.2.2 now
      (r2.1, r.2.1 ++ r2.2.1, r2.2.2)

/-- The final fragment generate_synthesis_stream yields once the whole cascade
is exhausted, instead of raising. -/
def serviceOverloadedMessage : String :=
  "Service overloaded. Please try again later."

/-- EgoGeminiProvider.generate_synthesis_stream as the list of yielded
fragments: the cascade over model_chain, with one final apologetic fragment
appended when every model was exhausted. -/
def generateSynthesisStream (cfg : Config) (scall : String → String → StreamCallResult)
    (chains : String → List String) (model : String)
    (fuel : ℕ) (st : ProviderState) (now : ℚ) : List String × ProviderState :=
  let modelChain := model :: chains model
  let r := streamChain cfg scall modelChain fuel st now
  if r.1 then (r.2.1, r.2.2) else (r.2.1 ++ [serviceOverloadedMessage], r.2.2)

/-- An item the agent-level stream EGO.synthesize_stream yields to its
consumer: either a text chunk forwarded from the backend, or the reserved
control dict {"type": "reset"} meaning discard everything received so far. -/
inductive StreamItem where
  | frag (s : String)
  | reset
deriving DecidableEq

/-- One run of the backend stream (self.backend.generate_synthesis_stream) as
observed by EGO.synthesize_stream: either it completes after yielding its
chunks, or it raises a classified API error (ClientError / ServerError /
GoogleAPICallError) after yielding a (possibly empty) part of them. -/
inductive BackendStreamRun where
  | ok (chunks : List String)
  | apiError (chunks : List String)
deriving DecidableEq

/-- Whether the backend stream run completed without raising. -/
def BackendStreamRun.isOk : BackendStreamRun → Bool
  | .ok _ => true
  | .apiError _ => false

/-- The final apologetic fragment EGO.synthesize_stream yields after all
MAX_ATTEMPTS retries failed. -/
def synthesisApologyMessage : String :=
  "\n\n[I apologize, but I encountered a persistent error while trying to generate a response. Please try again later.]"

/-- The retry for-loop of EGO.synthesize_stream over the remaining attempt
indices: forward every chunk of the attempt; on a classified API error either
break to the final apology (when this was the last attempt) or, if this
attempt already yielded chunks (has_yielded), emit one reset control item,
shrink the context and retry. Returns (yielded items, backend calls made). -/
def synthStreamAux (bstream : ℕ → BackendStreamRun) :
    List ℕ → List StreamItem × ℕ
  | [] => ([StreamItem.frag synthesisApologyMessage], 0)
  | a :: rest =>
    match bstream a with
    | BackendStreamRun.ok chunks => (chunks.map StreamItem.frag, 1)
    | BackendStreamRun.apiError chunks =>
      if rest.isEmpty then
        (chunks.map StreamItem.frag ++ [StreamItem.frag synthesisApologyMessage], 1)
      else
        let r := synthStreamAux bstream rest
        (chunks.map StreamItem.frag ++
          (if chunks.isEmpty then [] else [StreamItem.reset]) ++ r.1, r.2 + 1)

/-- EGO.synthesize_stream with the prompt building abstracted away: the
attempt loop for attempt in range(MAX_ATTEMPTS), where bstream gives the
behaviour of the backend stream at each attempt index. -/
def synthesizeStream (bstream : ℕ → BackendStreamRun) (maxAttempts : ℕ) :
    List StreamItem × ℕ :=
  synthStreamAux bstream (List.range maxAttempts)

/-- What a consumer that honors the reset control item ends up with: chunks
are appended, a reset discards everything received so far. -/
def consumeWithResets (items : List StreamItem) : List String :=
  items.foldl
    (fun acc it =>
      match it with
      | StreamItem.frag s => acc ++ [s]
      | StreamItem.reset => []) []

/-- Outcome of one generation attempt inside EGO.generate_thought: the
backend returned text that parses as JSON, returned text that does not parse
(json.JSONDecodeError), or raised a classified API error. -/
inductive ThoughtGenOutcome where
  | ok (parsedJson : String) (usage : Option (ℕ × ℕ × ℕ))
  | badJson (usage : Option (ℕ × ℕ × ℕ))
  | apiError
deriving DecidableEq

/-- The field names of the Thought Pydantic model that carry no default
value and are therefore required at construction: thoughts, tool_reasoning,
tool_calls, thoughts_header and next_thought_needed. The remaining fields
confidence_score, self_critique and plan_status declare defaults. -/
def thoughtRequiredFields : List String :=
  ["thoughts", "tool_reasoning", "tool_calls", "thoughts_header",
   "next_thought_needed"]

/-- Pydantic construction Thought(**kwargs) under the model's default
config (no model_config is declared on Thought): an unknown keyword name is
ignored, every supplied value in the source has the declared field type, and
construction succeeds iff every required field name appears among the
supplied keyword names; a missing required field raises ValidationError. -/
def thoughtCtorOk (kwargs : List String) : Bool :=
  thoughtRequiredFields.all (fun f => kwargs.contains f)

/-- The keyword names passed to Thought in the JSON-parse-error fallback of
EGO.generate_thought (all snake_case, matching the declared fields). -/
def parseFallbackKwargs : List String :=
  ["thoughts", "tool_reasoning", "tool_calls", "thoughts_header",
   "next_thought_needed", "confidence_score", "self_critique", "plan_status"]

/-- The keyword names passed to Thought in the retry-exhaustion fallback of
EGO.generate_thought: the required field next_thought_needed is spelled
nextThoughtNeeded there. -/
def exhaustedFallbackKwargs : List String :=
  ["thoughts", "tool_reasoning", "tool_calls", "thoughts_header",
   "nextThoughtNeeded", "confidence_score", "self_critique", "plan_status"]

/-- What EGO.generate_thought produces: the parsed thought, the structured
fallback Thought built on a JSON parse error, the structured fallback
Thought built after every retry failed, or an uncaught exception raised
while constructing a fallback Thought (the exhaustion fallback is built
after the retry loop, outside every try block, so a ValidationError raised
by the Thought constructor propagates to the caller). -/
inductive ThoughtResult where
  | parsed (json : String) (usage : Option (ℕ × ℕ × ℕ))
  | parseErrorFallback (usage : Option (ℕ × ℕ × ℕ))
  | exhaustedFallback
  | raisedValidationError
deriving DecidableEq

/-- The fallback-construction step shared by the exit paths of
EGO.generate_thought: building Thought(**kwargs) yields the given result
when construction succeeds and raises ValidationError otherwise. -/
def buildFallback (kwargs : List String) (r : ThoughtResult) : ThoughtResult :=
  if thoughtCtorOk kwargs then r else ThoughtResult.raisedValidationError

/-- The retry for-loop of EGO.generate_thought over the remaining attempt
indices: return on success or on a JSON parse error (constructing its
fallback Thought); on a classified API error break to the final fallback
construction when this was the last attempt, else shrink the context and
retry. An empty attempt list likewise falls through to the final fallback
construction. Returns (result, backend generation calls made). -/
def generateThoughtAux (gen : ℕ → ThoughtGenOutcome) :
    List ℕ → ThoughtResult × ℕ
  | [] => (buildFallback exhaustedFallbackKwargs ThoughtResult.exhaustedFallback, 0)
  | a :: rest =>
    match gen a with
    | ThoughtGenOutcome.ok j u => (ThoughtResult.parsed j u, 1)
    | ThoughtGenOutcome.badJson u =>
      (buildFallback parseFallbackKwargs (ThoughtResult.parseErrorFallback u), 1)
    | ThoughtGenOutcome.apiError =>
      if rest.isEmpty then
        (buildFallback exhaustedFallbackKwargs ThoughtResult.exhaustedFallback, 1)
      else
        let r := generateThoughtAux gen rest
        (r.1, r.2 + 1)

/-- EGO.generate_thought with prompt building abstracted away: the attempt
loop for attempt in range(MAX_ATTEMPTS). -/
def generateThought (gen : ℕ → ThoughtGenOutcome) (maxAttempts : ℕ) :
    ThoughtResult × ℕ :=
  generateThoughtAux gen (List.range maxAttempts)

/-- EGO._wrap_block: wrap content in [BEGIN label MARKDOWN] ... [END label]
markers, returning empty input as is and never re-wrapping an already wrapped
block. -/
def wrapBlock (label content : String) : String :=
  if content = "" then ""
  else
    let beginMarker := "[BEGIN " ++ label ++ " MARKDOWN]"
    let endMarker := "[END " ++ label ++ "]"
    if content.startsWith beginMarker && content.endsWith endMarker then content
    else beginMarker ++ "\n" ++ content ++ "\n" ++ endMarker

/-- Outcome of the summarization collaborator call inside
EGO._summarize_block (self.backend.generate): returned text, raised a
classified API error (ClientError / ServerError / GoogleAPICallError), or
raised an unexpected exception (which _summarize_block re-raises). -/
inductive SummarizeCallResult where
  | ok (text : String)
  | apiError
  | unexpectedError
deriving DecidableEq

/-- The marker _summarize_block places between the kept head and tail of a
block when summarization failed. -/
def truncationMarker : String := "\n...\n[Content Truncated]\n...\n"

/-- EGO._summarize_block: empty content yields ""; content within 120% of
target_chars is wrapped untouched with no LLM call; longer content is
summarized (the result stripped and hard-capped to target_chars) or, when the
collaborator raises a classified API error, truncated to head and tail around
the truncation marker. An unexpected error is re-raised (modelled as none).
Returns (result, summarization calls made); the float literal 1.2 is the
rational 12/10. -/
def summarizeBlock (sumCall : SummarizeCallResult) (label content : String)
    (targetChars : ℕ) : Option String × ℕ :=
  if content = "" then (some "", 0)
  else if (content.length : ℚ) ≤ (targetChars : ℚ) * (12 / 10) then
    (some (wrapBlock label content), 0)
  else
    match sumCall with
    | SummarizeCallResult.ok text =>
      let compressed := text.trim
      let compressed :=
        if targetChars < compressed.length then compressed.take targetChars else compressed
      (some (wrapBlock label compressed), 1)
    | SummarizeCallResult.apiError =>
      let head := content.take (targetChars / 2)
      let tailLen := (targetChars + 1) / 2
      let tail := if tailLen = 0 then content else content.takeRight tailLen
      (some (wrapBlock label (head ++ truncationMarker ++ tail)), 1)
    | SummarizeCallResult.unexpectedError => (none, 1)

/-- A component of the prompt_parts list handled by
LLMProvider._prepare_openai_messages: a raw string, an object with a .text
attribute (a Google Part), a dict (message dicts are the ones whose entries
hold a "role" key), or anything else. -/
inductive PromptPart where
  | str (s : String)
  | textPart (text : String)
  | dict (entries : List (String × String))
  | other
deriving DecidableEq

/-- The text a part contributes to the aggregated user message: parts are
kept iff hasattr(part, "text") or isinstance(part, str). -/
def partText : PromptPart → Option String
  | PromptPart.str s => some s
  | PromptPart.textPart t => some t
  | PromptPart.dict _ => none
  | PromptPart.other => none

/-- The guard isinstance(prompt_parts[0], dict) and "role" in prompt_parts[0]. -/
def isRoleDict : PromptPart → Bool
  | PromptPart.dict entries => entries.any (fun e => e.1 = "role")
  | _ => false

/-- LLMProvider._prepare_openai_messages: a list whose first element is
already a role-tagged message dict is returned unchanged; otherwise all text
parts are joined into one user message, preceded by a system message when a
truthy system_instruction is given. -/
def prepareOpenaiMessages (promptParts : List PromptPart)
    (systemInstruction : Option String) : List PromptPart :=
  match promptParts with
  | first :: _ =>
    if isRoleDict first then promptParts
    else buildMessages promptParts systemInstruction
  | [] => buildMessages promptParts systemInstruction
where
  /-- The aggregation path: join the text parts with blank lines and build
  the system/user message list, skipping falsy components. -/
  buildMessages (promptParts : List PromptPart) (systemInstruction : Option String) :
      List PromptPart :=
    let userContent := String.intercalate "\n\n" (promptParts.filterMap partText)
    let sysMessages : List PromptPart :=
      match systemInstruction with
      | some si =>
        if si = "" then [] else [PromptPart.dict [("role", "system"), ("content", si)]]
      | none => []
    let userMessages : List PromptPart :=
      if userContent = "" then []
      else [PromptPart.dict [("role", "user"), ("content", userContent)]]
    sysMessages ++ userMessages

/-- Concrete provider state for exercising the streaming cascade: two keys,
no cooldowns, rotor at 0. -/
def c2PoolState : ProviderState := ⟨["key1", "key2"], fun _ => 0, 0⟩

/-- Concrete streaming transport: the first key yields one fragment and then
raises a transient ClientError mid-stream; the second key streams to
completion. -/
def c2Scall : String → String → StreamCallResult := fun k _ =>
  if k = "key1" then StreamCallResult.fail ["stale-chunk"] true false
  else StreamCallResult.ok ["fresh-answer"]

/-- The composed run of EGO.synthesize_stream over
EgoGeminiProvider.generate_synthesis_stream on the c2 scenario: the provider
generator catches every transport exception itself, so the agent-level loop
observes one completed backend run. -/
def c2ComposedRun : List StreamItem :=
  (synthesizeStream
    (fun _ =>
      BackendStreamRun.ok
        (generateSynthesisStream defaultConfig c2Scall (fun _ => []) "gemini-2.5-pro" 8
          c2PoolState 0).1)
    3).1

/-- Concrete pool of three always-ready keys with the rotor at index 1, for
exercising round-robin fairness. -/
def c9State : ProviderState := ⟨["a", "b", "c"], fun _ => 0, 1⟩

/-- Pool for the sticky-priority scenarios: the pin cooling down 100 s for
model m1 while the other key is free. -/
def c4bState : ProviderState :=
  ⟨["q", "p"], fun q => if q = ("p", "m1") then (100 : ℚ) else 0, 0⟩

/-- Pool where every key is cooling down 100 s for model m1 but free for every
other model. -/
def c4cState : ProviderState :=
  ⟨["q", "p"], fun q => if q.2 = "m1" then (100 : ℚ) else 0, 0⟩

/-- Pool where the pin cools down for only 3 s for model m1. -/
def c4dState : ProviderState :=
  ⟨["q", "p"], fun q => if q = ("p", "m1") then (3 : ℚ) else 0, 0⟩

-- ---------------------------------------------------------------------------
-- Theorems
-- ---------------------------------------------------------------------------

theorem intercalate_nil_strings : String.intercalate "\n\n" ([] : List String) = "" := rfl

theorem buildMessages_shape (ps : List PromptPart) (si : Option String) :
    prepareOpenaiMessages.buildMessages ps si = [] ∨
    ∃ first rest, prepareOpenaiMessages.buildMessages ps si = first :: rest ∧
      isRoleDict first = true := by
  unfold prepareOpenaiMessages.buildMessages
  rcases si with _ | si
  · by_cases hu : String.intercalate "\n\n" (ps.filterMap partText) = ""
    · left; simp [hu]
    · right
      refine ⟨PromptPart.dict
          [("role", "user"), ("content", String.intercalate "\n\n" (ps.filterMap partText))],
        [], ?_, ?_⟩
      · simp [hu]
      · simp [isRoleDict]
  · by_cases hsi : si = ""
    · by_cases hu : String.intercalate "\n\n" (ps.filterMap partText) = ""
      · left; simp [hu, hsi]
      · right
        refine ⟨PromptPart.dict
            [("role", "user"), ("content", String.intercalate "\n\n" (ps.filterMap partText))],
          [], ?_, ?_⟩
        · simp [hu, hsi]
        · simp [isRoleDict]
    · right
      refine ⟨PromptPart.dict [("role", "system"), ("content", si)],
        (if String.intercalate "\n\n" (ps.filterMap partText) = "" then []
         else [PromptPart.dict
            [("role", "user"), ("content", String.intercalate "\n\n" (ps.filterMap partText))]]),
        ?_, ?_⟩
      · simp [hsi]
      · simp [isRoleDict]

theorem buildMessages_nil_of (ps : List PromptPart) (si : Option String)
    (h : prepareOpenaiMessages.buildMessages ps si = []) :
    prepareOpenaiMessages.buildMessages [] si = [] := by
  unfold prepareOpenaiMessages.buildMessages at h ⊢
  rcases si with _ | si
  · simp [intercalate_nil_strings]
  · by_cases hsi : si = ""
    · simp [hsi, intercalate_nil_strings]
    · simp [hsi] at h

/-- C10: LLMProvider._prepare_openai_messages leaves a list whose first
element is a role-tagged message dict unchanged, and is idempotent: applying
the conversion twice yields the same result as applying it once. -/
theorem c10_prepare_openai_messages_idempotent :
    (∀ (ps : List PromptPart) (si : Option String) (first : PromptPart)
        (rest : List PromptPart),
        ps = first :: rest → isRoleDict first = true →
        prepareOpenaiMessages ps si = ps) ∧
    (∀ (ps : List PromptPart) (si : Option String),
        prepareOpenaiMessages (prepareOpenaiMessages ps si) si =
          prepareOpenaiMessages ps si) := by
  constructor
  · intro ps si first rest hps hrole
    subst hps
    simp [prepareOpenaiMessages, hrole]
  · intro ps si
    cases ps with
    | nil =>
      have h0 : prepareOpenaiMessages [] si = prepareOpenaiMessages.buildMessages [] si := by
        simp [prepareOpenaiMessages]
      rw [h0]
      rcases buildMessages_shape [] si with h | ⟨f, r, h, hrole⟩
      · rw [h, h0]
        exact h
      · rw [h]
        simp [prepareOpenaiMessages, hrole]
    | cons first rest =>
      by_cases hrd : isRoleDict first
      · simp [prepareOpenaiMessages, hrd]
      · have hps : prepareOpenaiMessages (first :: rest) si =
            prepareOpenaiMessages.buildMessages (first :: rest) si := by
          simp [prepareOpenaiMessages, hrd]
        rw [hps]
        rcases buildMessages_shape (first :: rest) si with h | ⟨f, r, h, hrole⟩
        · rw [h]
          have h2 : prepareOpenaiMessages ([] : List PromptPart) si =
              prepareOpenaiMessages.buildMessages [] si := by
            simp [prepareOpenaiMessages]
          rw [h2]
          exact buildMessages_nil_of _ _ h
        · rw [h]
          simp [prepareOpenaiMessages, hrole]

/-- Witness: the role-dict guard and the idempotence law at concrete inputs. -/
theorem c10_witness :
    prepareOpenaiMessages
        [PromptPart.dict [("role", "user"), ("content", "hi")]] none =
      [PromptPart.dict [("role", "user"), ("content", "hi")]] ∧
    prepareOpenaiMessages
        (prepareOpenaiMessages [PromptPart.str "hello"] (some "sys")) (some "sys") =
      prepareOpenaiMessages [PromptPart.str "hello"] (some "sys") :=
  ⟨c10_prepare_openai_messages_idempotent.1 _ none _ [] rfl rfl,
   c10_prepare_openai_messages_idempotent.2 [PromptPart.str "hello"] (some "sys")⟩

/-- C8: EGO._summarize_block leaves non-empty blocks within 120% of the
target size untouched (wrapped, no summarization call); longer blocks are
summarized with the result stripped and hard-capped to the target size; and a
classified API failure of the collaborator yields head and tail of the block
around the truncation marker. -/
theorem c8_summarize_block_policy :
    (∀ (sumCall : SummarizeCallResult) (label content : String) (targetChars : ℕ),
        content ≠ "" → (content.length : ℚ) ≤ (targetChars : ℚ) * (12 / 10) →
        summarizeBlock sumCall label content targetChars =
          (some (wrapBlock label content), 0)) ∧
    (∀ (label content text : String) (targetChars : ℕ),
        (targetChars : ℚ) * (12 / 10) < (content.length : ℚ) →
        summarizeBlock (SummarizeCallResult.ok text) label content targetChars =
          (some (wrapBlock label
            (if targetChars < text.trim.length then text.trim.take targetChars
             else text.trim)), 1)) ∧
    (∀ (label content : String) (targetChars : ℕ),
        (targetChars : ℚ) * (12 / 10) < (content.length : ℚ) →
        summarizeBlock SummarizeCallResult.apiError label content targetChars =
          (some (wrapBlock label (content.take (targetChars / 2) ++ truncationMarker ++
            (if (targetChars + 1) / 2 = 0 then content
             else content.takeRight ((targetChars + 1) / 2)))), 1)) := by
  have hne : ∀ (content : String) (targetChars : ℕ),
      (targetChars : ℚ) * (12 / 10) < (content.length : ℚ) → content ≠ "" := by
    intro content targetChars h he
    subst he
    have h0 : (("" : String).length : ℚ) = 0 := by norm_num
    rw [h0] at h
    have : (0 : ℚ) ≤ (targetChars : ℚ) * (12 / 10) := by positivity
    linarith
  refine ⟨?_, ?_, ?_⟩
  · intro sumCall label content targetChars h1 h2
    unfold summarizeBlock
    rw [if_neg h1, if_pos h2]
  · intro label content text targetChars h
    unfold summarizeBlock
    rw [if_neg (hne content targetChars h), if_neg (not_le.mpr h)]
  · intro label content targetChars h
    unfold summarizeBlock
    rw [if_neg (hne content targetChars h), if_neg (not_le.mpr h)]

/-- Witness: the three branches of the shrink step on concrete blocks. -/
theorem c8_witness :
    summarizeBlock SummarizeCallResult.apiError "H" "abc" 10 =
      (some (wrapBlock "H" "abc"), 0) ∧
    summarizeBlock (SummarizeCallResult.ok " s ") "H" "abc" 0 =
      (some (wrapBlock "H" (if 0 < " s ".trim.length then " s ".trim.take 0
                            else " s ".trim)), 1) ∧
    summarizeBlock SummarizeCallResult.apiError "H" "abcd" 2 =
      (some (wrapBlock "H" ("abcd".take 1 ++ truncationMarker ++
        (if (1 : ℕ) = 0 then "abcd" else "abcd".takeRight 1))), 1) := by
  refine ⟨?_, ?_, ?_⟩
  · exact c8_summarize_block_policy.1 SummarizeCallResult.apiError "H" "abc" 10
      (by decide) (by norm_num [show ("abc" : String).length = 3 from rfl])
  · exact c8_summarize_block_policy.2.1 "H" "abc" " s " 0
      (by norm_num [show ("abc" : String).length = 3 from rfl])
  · exact c8_summarize_block_policy.2.2 "H" "abcd" 2
      (by norm_num [show ("abcd" : String).length = 4 from rfl])

theorem generateThoughtAux_calls_le (gen : ℕ → ThoughtGenOutcome) :
    ∀ l : List ℕ, (generateThoughtAux gen l).2 ≤ l.length := by
  intro l
  induction l with
  | nil => simp [generateThoughtAux]
  | cons a rest ih =>
    cases hga : gen a with
    | ok j u => simp [generateThoughtAux, hga]
    | badJson u => simp [generateThoughtAux, hga]
    | apiError =>
      by_cases hr : rest.isEmpty
      · simp [generateThoughtAux, hga, hr]
      · simp only [generateThoughtAux, hga, if_neg hr, List.length_cons]
        omega

theorem thoughtCtorOk_exhaustedKwargs :
    thoughtCtorOk exhaustedFallbackKwargs = false := by decide

theorem thoughtCtorOk_parseKwargs :
    thoughtCtorOk parseFallbackKwargs = true := by decide

theorem generateThoughtAux_allfail (gen : ℕ → ThoughtGenOutcome)
    (hfail : ∀ a, gen a = ThoughtGenOutcome.apiError) :
    ∀ l : List ℕ,
      (generateThoughtAux gen l).1 = ThoughtResult.raisedValidationError := by
  intro l
  induction l with
  | nil => simp [generateThoughtAux, buildFallback, thoughtCtorOk_exhaustedKwargs]
  | cons a rest ih =>
    by_cases hr : rest.isEmpty
    · simp [generateThoughtAux, hfail a, hr, buildFallback,
        thoughtCtorOk_exhaustedKwargs]
    · simp [generateThoughtAux, hfail a, hr, ih]

theorem synthStreamAux_calls_le (bstream : ℕ → BackendStreamRun) :
    ∀ l : List ℕ, (synthStreamAux bstream l).2 ≤ l.length := by
  intro l
  induction l with
  | nil => simp [synthStreamAux]
  | cons a rest ih =>
    cases hba : bstream a with
    | ok chunks => simp [synthStreamAux, hba]
    | apiError chunks =>
      by_cases hr : rest.isEmpty
      · simp [synthStreamAux, hba, hr]
      · simp only [synthStreamAux, hba, if_neg hr, List.length_cons]
        omega

theorem synthStreamAux_allfail (bstream : ℕ → BackendStreamRun)
    (hfail : ∀ a, (bstream a).isOk = false) :
    ∀ l : List ℕ, ∃ pre, (synthStreamAux bstream l).1 =
      pre ++ [StreamItem.frag synthesisApologyMessage] := by
  intro l
  induction l with
  | nil => exact ⟨[], rfl⟩
  | cons a rest ih =>
    cases hba : bstream a with
    | ok chunks =>
      exfalso
      have := hfail a
      rw [hba] at this
      simp [BackendStreamRun.isOk] at this
    | apiError chunks =>
      by_cases hr : rest.isEmpty
      · exact ⟨chunks.map StreamItem.frag, by simp [synthStreamAux, hba, hr]⟩
      · obtain ⟨pre, hpre⟩ := ih
        refine ⟨chunks.map StreamItem.frag ++
          (if chunks.isEmpty then [] else [StreamItem.reset]) ++ pre, ?_⟩
        simp [synthStreamAux, hba, hr, hpre]

/-- C7: the attempt bound holds for both context-shrink retry wrappers and
the streaming wrapper does end every exhausted run with the apologetic
fragment, but EGO.generate_thought diverges from the claim on exhaustion:
its final fallback Thought is constructed with the keyword nextThoughtNeeded
while the required field next_thought_needed carries no default, so the
constructor raises a ValidationError that propagates to the caller instead
of the structured fallback being returned (the JSON-parse-error fallback,
all snake_case, constructs fine, so only the exhaustion path raises). -/
theorem c7_exhaustion_fallback_raises_validation_error :
    (∀ (gen : ℕ → ThoughtGenOutcome) (maxAttempts : ℕ),
        (generateThought gen maxAttempts).2 ≤ maxAttempts) ∧
    exhaustedFallbackKwargs.contains "next_thought_needed" = false ∧
    thoughtCtorOk exhaustedFallbackKwargs = false ∧
    thoughtCtorOk parseFallbackKwargs = true ∧
    (∀ (gen : ℕ → ThoughtGenOutcome) (maxAttempts : ℕ),
        (∀ a, gen a = ThoughtGenOutcome.apiError) →
        (generateThought gen maxAttempts).1 =
          ThoughtResult.raisedValidationError) ∧
    (∀ (bstream : ℕ → BackendStreamRun) (maxAttempts : ℕ),
        (synthesizeStream bstream maxAttempts).2 ≤ maxAttempts) ∧
    (∀ (bstream : ℕ → BackendStreamRun) (maxAttempts : ℕ),
        (∀ a, (bstream a).isOk = false) →
        ∃ pre, (synthesizeStream bstream maxAttempts).1 =
          pre ++ [StreamItem.frag synthesisApologyMessage]) := by
  refine ⟨?_, by decide, thoughtCtorOk_exhaustedKwargs, thoughtCtorOk_parseKwargs,
    ?_, ?_, ?_⟩
  · intro gen maxAttempts
    simpa [generateThought] using generateThoughtAux_calls_le gen (List.range maxAttempts)
  · intro gen maxAttempts h
    exact generateThoughtAux_allfail gen h _
  · intro bstream maxAttempts
    simpa [synthesizeStream] using synthStreamAux_calls_le bstream (List.range maxAttempts)
  · intro bstream maxAttempts h
    exact synthStreamAux_allfail bstream h _

/-- Witness: both wrappers at MAX_ATTEMPTS = 3 with an always-failing
backend; generate_thought ends raising the ValidationError. -/
theorem c7_witness :
    (generateThought (fun _ => ThoughtGenOutcome.apiError) 3).2 ≤ 3 ∧
    (generateThought (fun _ => ThoughtGenOutcome.apiError) 3).1 =
      ThoughtResult.raisedValidationError ∧
    (synthesizeStream (fun _ => BackendStreamRun.apiError []) 3).2 ≤ 3 ∧
    ∃ pre, (synthesizeStream (fun _ => BackendStreamRun.apiError []) 3).1 =
      pre ++ [StreamItem.frag synthesisApologyMessage] :=
  ⟨c7_exhaustion_fallback_raises_validation_error.1 _ 3,
   c7_exhaustion_fallback_raises_validation_error.2.2.2.2.1 _ 3 (fun _ => rfl),
   c7_exhaustion_fallback_raises_validation_error.2.2.2.2.2.1 _ 3,
   c7_exhaustion_fallback_raises_validation_error.2.2.2.2.2.2 _ 3 (fun _ => rfl)⟩

theorem streamTryModel_allfail (cfg : Config) (scall : String → String → StreamCallResult)
    (modelName : String) (hfail : ∀ k m, (scall k m).isOk = false) :
    ∀ (fuel : ℕ) (st : ProviderState) (tried : List String) (now : ℚ),
      (streamTryModel cfg scall modelName fuel st tried now).1 = false ∧
      ∀ s ∈ (streamTryModel cfg scall modelName fuel st tried now).2.1,
        ∃ k, s ∈ fragsOf (scall k modelName) := by
  intro fuel
  induction fuel with
  | zero =>
    intro st tried now
    exact ⟨rfl, by simp [streamTryModel]⟩
  | succ fuel ih =>
    intro st tried now
    simp only [streamTryModel]
    by_cases hlen : st.pool.length ≤ tried.length
    · simp [hlen]
    · rw [if_neg hlen]
      rcases hsel : (nextReadyClient st modelName now).1 with _ | ⟨idx, k⟩
      · exact ⟨rfl, by simp⟩
      · dsimp only
        by_cases htr : k ∈ tried
        · simp [htr]
        · rw [if_neg htr]
          rcases hca : scall k modelName with frags | ⟨frags, isCE, hr429⟩
          · exfalso
            have := hfail k modelName
            rw [hca] at this
            simp [StreamCallResult.isOk] at this
          · dsimp only
            obtain ⟨h1, h2⟩ := ih
              (markOnCooldown (nextReadyClient st modelName now).2.2 k modelName now
                (streamCooldownSeconds cfg isCE hr429)) (tried ++ [k]) now
            refine ⟨h1, ?_⟩
            intro s hs
            rcases List.mem_append.mp hs with hs1 | hs2
            · exact ⟨k, by rw [hca]; exact hs1⟩
            · exact h2 s hs2

theorem streamChain_allfail (cfg : Config) (scall : String → String → StreamCallResult)
    (hfail : ∀ k m, (scall k m).isOk = false) :
    ∀ (chain : List String) (fuel : ℕ) (st : ProviderState) (now : ℚ),
      (streamChain cfg scall chain fuel st now).1 = false ∧
      ∀ s ∈ (streamChain cfg scall chain fuel st now).2.1,
        ∃ k m, s ∈ fragsOf (scall k m) := by
  intro chain
  induction chain with
  | nil =>
    intro fuel st now
    exact ⟨rfl, by simp [streamChain]⟩
  | cons m rest ih =>
    intro fuel st now
    obtain ⟨h1, h2⟩ := streamTryModel_allfail cfg scall m hfail fuel st [] now
    obtain ⟨h3, h4⟩ := ih fuel (streamTryModel cfg scall m fuel st [] now).2.2 now
    simp only [streamChain]
    rw [h1]
    refine ⟨by simpa using h3, ?_⟩
    intro s hs
    simp only [if_neg Bool.false_ne_true] at hs
    rcases List.mem_append.mp (by simpa using hs) with hs1 | hs2
    · obtain ⟨k, hk⟩ := h2 s hs1
      exact ⟨k, m, hk⟩
    · exact h4 s hs2

/-- C6: when every streaming attempt fails across the whole model chain,
generate_synthesis_stream never raises: it yields the fragments leaked by the
failed attempts followed by exactly one final apologetic fragment, and when no
attempt leaked fragments the stream is exactly that single final fragment. -/
theorem c6_stream_exhaustion_single_final_fragment
    (cfg : Config) (scall : String → String → StreamCallResult)
    (chains : String → List String) (model : String) (fuel : ℕ)
    (st : ProviderState) (now : ℚ)
    (hfail : ∀ k m, (scall k m).isOk = false) :
    (∃ leaked,
        (generateSynthesisStream cfg scall chains model fuel st now).1 =
          leaked ++ [serviceOverloadedMessage] ∧
        ∀ s ∈ leaked, ∃ k m, s ∈ fragsOf (scall k m)) ∧
    ((∀ k m, fragsOf (scall k m) = []) →
      (generateSynthesisStream cfg scall chains model fuel st now).1 =
        [serviceOverloadedMessage]) := by
  obtain ⟨h1, h2⟩ := streamChain_allfail cfg scall hfail (model :: chains model) fuel st now
  have hout : (generateSynthesisStream cfg scall chains model fuel st now).1 =
      (streamChain cfg scall (model :: chains model) fuel st now).2.1 ++
        [serviceOverloadedMessage] := by
    simp only [generateSynthesisStream]
    rw [h1]
    simp
  constructor
  · exact ⟨_, hout, h2⟩
  · intro hnofrag
    have hnil : (streamChain cfg scall (model :: chains model) fuel st now).2.1 = [] := by
      refine List.eq_nil_iff_forall_not_mem.mpr ?_
      intro s hs
      obtain ⟨k, m, hk⟩ := h2 s hs
      rw [hnofrag k m] at hk
      exact absurd hk (List.not_mem_nil s)
    rw [hout, hnil]
    rfl

/-- Witness: a one-key pool where the single streaming attempt fails without
leaking fragments. -/
theorem c6_witness :
    (∃ leaked,
        (generateSynthesisStream defaultConfig
            (fun _ _ => StreamCallResult.fail [] false false) (fun _ => []) "m" 5
            ⟨["k1"], fun _ => 0, 0⟩ 0).1 =
          leaked ++ [serviceOverloadedMessage] ∧
        ∀ s ∈ leaked, ∃ k m,
          s ∈ fragsOf ((fun (_ _ : String) => StreamCallResult.fail [] false false) k m)) ∧
    ((∀ k m : String,
        fragsOf ((fun (_ _ : String) => StreamCallResult.fail [] false false) k m) = []) →
      (generateSynthesisStream defaultConfig
          (fun _ _ => StreamCallResult.fail [] false false) (fun _ => []) "m" 5
          ⟨["k1"], fun _ => 0, 0⟩ 0).1 =
        [serviceOverloadedMessage]) :=
  c6_stream_exhaustion_single_final_fragment defaultConfig
    (fun _ _ => StreamCallResult.fail [] false false) (fun _ => []) "m" 5
    ⟨["k1"], fun _ => 0, 0⟩ 0 (fun _ _ => rfl)

/-- C2 (code behaviour at a concrete failing input): with two keys, a
mid-stream failure on the first key after one fragment was already yielded and
a successful retry on the second key, the provider-level cascade in
generate_synthesis_stream retries internally, so the composed stream carries
the stale fragment followed by the fresh one with no reset control item in
between: a consumer honouring resets ends with a mix of both attempts instead
of exactly the successful attempt's fragments. -/
theorem c2_midstream_retry_emits_no_reset :
    (generateSynthesisStream defaultConfig c2Scall (fun _ => []) "gemini-2.5-pro" 8 c2PoolState
        0).1 = ["stale-chunk", "fresh-answer"] ∧
    c2ComposedRun = [StreamItem.frag "stale-chunk", StreamItem.frag "fresh-answer"] ∧
    StreamItem.reset ∉ c2ComposedRun ∧
    consumeWithResets c2ComposedRun = ["stale-chunk", "fresh-answer"] ∧
    consumeWithResets c2ComposedRun ≠ ["fresh-answer"] := by
  refine ⟨by decide, by decide, by decide, by decide, by decide⟩

theorem markOnCooldown_get_same (st : ProviderState) (key m : String) (now s : ℚ) :
    (markOnCooldown st key m now s).cooldown (key, m) = now + s := by
  simp [markOnCooldown]

theorem markOnCooldown_get_other (st : ProviderState) (key m k' m' : String) (now s : ℚ)
    (h : (k', m') ≠ (key, m)) :
    (markOnCooldown st key m now s).cooldown (k', m') = st.cooldown (k', m') := by
  simp [markOnCooldown, h]

theorem markOnCooldown_pool (st : ProviderState) (key m : String) (now s : ℚ) :
    (markOnCooldown st key m now s).pool = st.pool := rfl

theorem markOnCooldown_rotor (st : ProviderState) (key m : String) (now s : ℚ) :
    (markOnCooldown st key m now s).rotor = st.rotor := rfl

theorem nrScan_fst_acc (st : ProviderState) (modelName : String) (now : ℚ) :
    ∀ (ps : List ℕ) (a b : Option ℚ),
      (nrScan st modelName now ps a).1 = (nrScan st modelName now ps b).1 := by
  intro ps
  induction ps with
  | nil => intro a b; rfl
  | cons i rest ih =>
    intro a b
    simp only [nrScan]
    by_cases hc : st.cooldown (keyAt st i, modelName) ≤ now
    · simp [hc]
    · simp only [if_neg hc]
      exact ih _ _

theorem nrScan_some_spec (st : ProviderState) (modelName : String) (now : ℚ) :
    ∀ (ps : List ℕ) (acc : Option ℚ) (idx : ℕ) (k : String),
      (nrScan st modelName now ps acc).1 = some (idx, k) →
      idx ∈ ps ∧ k = keyAt st idx ∧ st.cooldown (k, modelName) ≤ now := by
  intro ps
  induction ps with
  | nil => intro acc idx k h; exact absurd h (by simp [nrScan])
  | cons i rest ih =>
    intro acc idx k h
    simp only [nrScan] at h
    by_cases hc : st.cooldown (keyAt st i, modelName) ≤ now
    · rw [if_pos hc] at h
      have h' : (i, keyAt st i) = (idx, k) := Option.some.inj h
      obtain ⟨h1, h2⟩ := Prod.ext_iff.mp h'
      subst h1
      subst h2
      exact ⟨by simp, rfl, hc⟩
    · rw [if_neg hc] at h
      obtain ⟨hm, hk, hr⟩ := ih _ idx k h
      exact ⟨List.mem_cons_of_mem _ hm, hk, hr⟩

theorem nrScan_none_spec (st : ProviderState) (modelName : String) (now : ℚ) :
    ∀ (ps : List ℕ) (acc : Option ℚ),
      (nrScan st modelName now ps acc).1 = none →
      ∀ idx ∈ ps, ¬ (st.cooldown (keyAt st idx, modelName) ≤ now) := by
  intro ps
  induction ps with
  | nil => intro acc _ idx h; exact absurd h (List.not_mem_nil idx)
  | cons i rest ih =>
    intro acc h idx hm
    simp only [nrScan] at h
    by_cases hc : st.cooldown (keyAt st i, modelName) ≤ now
    · rw [if_pos hc] at h
      exact absurd h (by simp)
    · rw [if_neg hc] at h
      rcases List.mem_cons.mp hm with h1 | h2
      · rw [h1]; exact hc
      · exact ih _ h idx h2

theorem nrScan_first (st : ProviderState) (modelName : String) (now : ℚ) :
    ∀ (ps1 : List ℕ) (idx : ℕ) (ps2 : List ℕ) (acc : Option ℚ),
      (∀ j ∈ ps1, ¬ (st.cooldown (keyAt st j, modelName) ≤ now)) →
      st.cooldown (keyAt st idx, modelName) ≤ now →
      (nrScan st modelName now (ps1 ++ idx :: ps2) acc).1 = some (idx, keyAt st idx) := by
  intro ps1
  induction ps1 with
  | nil =>
    intro idx ps2 acc _ hr
    simp [nrScan, hr]
  | cons i rest ih =>
    intro idx ps2 acc hall hr
    have hi : ¬ (st.cooldown (keyAt st i, modelName) ≤ now) := hall i (by simp)
    simp only [List.cons_append, nrScan, if_neg hi]
    exact ih idx ps2 _ (fun j hj => hall j (List.mem_cons_of_mem _ hj)) hr

theorem mem_scanIdxs_lt (poolSize r idx : ℕ) (h : idx ∈ scanIdxs poolSize r) :
    idx < poolSize := by
  obtain ⟨i, hi, hfi⟩ := List.mem_map.mp h
  have hP : 0 < poolSize := Nat.pos_of_ne_zero (by
    intro h0
    rw [h0] at hi
    exact absurd hi (by simp))
  rw [← hfi]
  exact Nat.mod_lt _ hP

theorem mem_scanIdxs_of_lt (poolSize r j : ℕ) (h : j < poolSize) :
    j ∈ scanIdxs poolSize r := by
  have hP : 0 < poolSize := Nat.lt_of_le_of_lt (Nat.zero_le _) h
  refine List.mem_map.mpr
    ⟨(j + (poolSize - r % poolSize)) % poolSize, List.mem_range.mpr (Nat.mod_lt _ hP), ?_⟩
  have h1 : r + (j + (poolSize - r % poolSize)) % poolSize ≡
      r + (j + (poolSize - r % poolSize)) [MOD poolSize] :=
    Nat.ModEq.add_left r (Nat.mod_modEq _ _)
  have h2 : r + (j + (poolSize - r % poolSize)) ≡
      r % poolSize + (j + (poolSize - r % poolSize)) [MOD poolSize] :=
    Nat.ModEq.add_right _ (Nat.mod_modEq r poolSize).symm
  have h3 : r % poolSize + (j + (poolSize - r % poolSize)) = j + poolSize := by
    have hle : r % poolSize ≤ poolSize := le_of_lt (Nat.mod_lt _ hP)
    omega
  calc (r + (j + (poolSize - r % poolSize)) % poolSize) % poolSize
      = (r + (j + (poolSize - r % poolSize))) % poolSize := h1
    _ = (r % poolSize + (j + (poolSize - r % poolSize))) % poolSize := h2
    _ = (j + poolSize) % poolSize := by rw [h3]
    _ = j % poolSize := Nat.add_mod_right j poolSize
    _ = j := Nat.mod_eq_of_lt h

theorem keyAt_mem (st : ProviderState) (idx : ℕ) (h : idx < st.pool.length) :
    keyAt st idx ∈ st.pool := by
  unfold keyAt
  rw [List.getD_eq_get _ _ h]
  exact List.get_mem _ _ _

theorem nextReadyClient_eq_of_scan_some (st : ProviderState) (modelName : String) (now : ℚ)
    (idx : ℕ) (k : String) (e : Option ℚ)
    (hn : nrScan st modelName now (scanIdxs st.pool.length st.rotor) none = (some (idx, k), e)) :
    nextReadyClient st modelName now =
      (some (idx, k), 0, { st with rotor := (idx + 1) % st.pool.length }) := by
  unfold nextReadyClient
  rw [hn]

theorem nextReadyClient_of_scan_none (st : ProviderState) (modelName : String) (now : ℚ)
    (e : Option ℚ)
    (hn : nrScan st modelName now (scanIdxs st.pool.length st.rotor) none = (none, e)) :
    (nextReadyClient st modelName now).1 = none ∧
    (nextReadyClient st modelName now).2.2 = st := by
  unfold nextReadyClient
  rw [hn]
  exact ⟨rfl, rfl⟩

theorem nextReadyClient_some_spec (st : ProviderState) (modelName : String) (now : ℚ)
    (idx : ℕ) (k : String)
    (h : (nextReadyClient st modelName now).1 = some (idx, k)) :
    k = keyAt st idx ∧ st.cooldown (k, modelName) ≤ now ∧ idx < st.pool.length ∧
    k ∈ st.pool ∧
    (nextReadyClient st modelName now).2.2 =
      { st with rotor := (idx + 1) % st.pool.length } := by
  rcases hsc : nrScan st modelName now (scanIdxs st.pool.length st.rotor) none with ⟨cand, e⟩
  cases cand with
  | none =>
    rw [(nextReadyClient_of_scan_none st modelName now e hsc).1] at h
    exact absurd h (by simp)
  | some p =>
    rcases p with ⟨i2, k2⟩
    rw [nextReadyClient_eq_of_scan_some st modelName now i2 k2 e hsc] at h ⊢
    have h' : (i2, k2) = (idx, k) := Option.some.inj h
    obtain ⟨h1, h2⟩ := Prod.ext_iff.mp h'
    subst h1
    subst h2
    have hs1 : (nrScan st modelName now (scanIdxs st.pool.length st.rotor) none).1 =
        some (i2, k2) := by rw [hsc]
    obtain ⟨hm, hk, hr⟩ := nrScan_some_spec st modelName now _ _ _ _ hs1
    have hlt : i2 < st.pool.length := mem_scanIdxs_lt _ _ _ hm
    exact ⟨hk, hr, hlt, hk ▸ keyAt_mem st i2 hlt, rfl⟩

theorem nextReadyClient_none_state (st : ProviderState) (modelName : String) (now : ℚ)
    (h : (nextReadyClient st modelName now).1 = none) :
    (nextReadyClient st modelName now).2.2 = st := by
  rcases hsc : nrScan st modelName now (scanIdxs st.pool.length st.rotor) none with ⟨cand, e⟩
  cases cand with
  | none => exact (nextReadyClient_of_scan_none st modelName now e hsc).2
  | some p =>
    rcases p with ⟨i2, k2⟩
    rw [nextReadyClient_eq_of_scan_some st modelName now i2 k2 e hsc] at h
    exact absurd h (by simp)

theorem nextReadyClient_pool (st : ProviderState) (modelName : String) (now : ℚ) :
    ((nextReadyClient st modelName now).2.2).pool = st.pool := by
  rcases hsc : nrScan st modelName now (scanIdxs st.pool.length st.rotor) none with ⟨cand, e⟩
  cases cand with
  | none => rw [(nextReadyClient_of_scan_none st modelName now e hsc).2]
  | some p =>
    rcases p with ⟨i2, k2⟩
    rw [nextReadyClient_eq_of_scan_some st modelName now i2 k2 e hsc]

theorem nextReadyClient_cooldown (st : ProviderState) (modelName : String) (now : ℚ) :
    ((nextReadyClient st modelName now).2.2).cooldown = st.cooldown := by
  rcases hsc : nrScan st modelName now (scanIdxs st.pool.length st.rotor) none with ⟨cand, e⟩
  cases cand with
  | none => rw [(nextReadyClient_of_scan_none st modelName now e hsc).2]
  | some p =>
    rcases p with ⟨i2, k2⟩
    rw [nextReadyClient_eq_of_scan_some st modelName now i2 k2 e hsc]

theorem nextReadyClient_isSome_of_ready (st : ProviderState) (modelName : String) (now : ℚ)
    (k : String) (hk : k ∈ st.pool) (hr : st.cooldown (k, modelName) ≤ now) :
    ∃ idx k2, (nextReadyClient st modelName now).1 = some (idx, k2) := by
  rcases hsc : nrScan st modelName now (scanIdxs st.pool.length st.rotor) none with ⟨cand, e⟩
  cases cand with
  | some p =>
    rcases p with ⟨i2, k2⟩
    exact ⟨i2, k2, by rw [nextReadyClient_eq_of_scan_some st modelName now i2 k2 e hsc]⟩
  | none =>
    exfalso
    have hnone : (nrScan st modelName now (scanIdxs st.pool.length st.rotor) none).1 = none := by
      rw [hsc]
    obtain ⟨⟨j, hj⟩, hget⟩ := List.mem_iff_get.mp hk
    have hjm : j ∈ scanIdxs st.pool.length st.rotor := mem_scanIdxs_of_lt _ _ _ hj
    have hkey : keyAt st j = k := by
      unfold keyAt
      rw [List.getD_eq_get _ _ hj]
      exact hget
    exact nrScan_none_spec st modelName now _ _ hnone j hjm (hkey ▸ hr)

theorem nrScan_congr (st1 st2 : ProviderState) (m1 m2 : String) (now : ℚ)
    (hpool : st1.pool = st2.pool)
    (hcd : ∀ key, st1.cooldown (key, m1) = st2.cooldown (key, m2)) :
    ∀ (ps : List ℕ) (acc : Option ℚ),
      nrScan st1 m1 now ps acc = nrScan st2 m2 now ps acc := by
  intro ps
  induction ps with
  | nil => intro acc; rfl
  | cons i rest ih =>
    intro acc
    have hkey : keyAt st1 i = keyAt st2 i := by unfold keyAt; rw [hpool]
    simp only [nrScan, hkey, hcd]
    by_cases hc : st2.cooldown (keyAt st2 i, m2) ≤ now
    · simp [hc]
    · simp only [if_neg hc]
      exact ih _

theorem nextReadyClient_congr (st1 st2 : ProviderState) (m1 m2 : String) (now : ℚ)
    (hpool : st1.pool = st2.pool) (hrot : st1.rotor = st2.rotor)
    (hcd : ∀ key, st1.cooldown (key, m1) = st2.cooldown (key, m2)) :
    (nextReadyClient st1 m1 now).1 = (nextReadyClient st2 m2 now).1 ∧
    (nextReadyClient st1 m1 now).2.1 = (nextReadyClient st2 m2 now).2.1 ∧
    ((nextReadyClient st1 m1 now).2.2).rotor = ((nextReadyClient st2 m2 now).2.2).rotor := by
  have hscan : nrScan st1 m1 now (scanIdxs st1.pool.length st1.rotor) none =
      nrScan st2 m2 now (scanIdxs st2.pool.length st2.rotor) none := by
    rw [hpool, hrot]
    exact nrScan_congr st1 st2 m1 m2 now hpool hcd _ _
  unfold nextReadyClient
  rw [hscan]
  rcases hsc : nrScan st2 m2 now (scanIdxs st2.pool.length st2.rotor) none with ⟨cand, e⟩
  cases cand with
  | none => exact ⟨rfl, rfl, hrot⟩
  | some p =>
    rcases p with ⟨idx, k⟩
    exact ⟨rfl, rfl, by simp [hpool]⟩

/-- C3: after _mark_on_cooldown(c, t, d) at time T, _next_ready_client(t)
never returns c strictly before T+d; from T+d on, c is eligible again and is
returned once every other key is cooling down; and selection for every other
model t2 is unaffected, because cooldown is keyed per (key, model) pair. -/
theorem c3_cooldown_floor (st : ProviderState) (c t : String) (d T : ℚ) :
    (∀ now : ℚ, now < T + d → ∀ idx k,
        (nextReadyClient (markOnCooldown st c t T d) t now).1 = some (idx, k) → k ≠ c) ∧
    (∀ now : ℚ, T + d ≤ now → (markOnCooldown st c t T d).cooldown (c, t) ≤ now) ∧
    (∀ now : ℚ, T + d ≤ now → c ∈ st.pool →
        (∀ k ∈ st.pool, k ≠ c → ¬ ((markOnCooldown st c t T d).cooldown (k, t) ≤ now)) →
        ∃ idx, (nextReadyClient (markOnCooldown st c t T d) t now).1 = some (idx, c)) ∧
    (∀ (now : ℚ) (t2 : String), t2 ≠ t →
        (nextReadyClient (markOnCooldown st c t T d) t2 now).1 =
          (nextReadyClient st t2 now).1 ∧
        (nextReadyClient (markOnCooldown st c t T d) t2 now).2.1 =
          (nextReadyClient st t2 now).2.1 ∧
        ((nextReadyClient (markOnCooldown st c t T d) t2 now).2.2).rotor =
          ((nextReadyClient st t2 now).2.2).rotor) := by
  refine ⟨?_, ?_, ?_, ?_⟩
  · intro now hnow idx k h hkc
    obtain ⟨_, hr, _, _, _⟩ :=
      nextReadyClient_some_spec (markOnCooldown st c t T d) t now idx k h
    rw [hkc, markOnCooldown_get_same] at hr
    linarith
  · intro now hnow
    rw [markOnCooldown_get_same]
    exact hnow
  · intro now hnow hc hothers
    have hcm : c ∈ (markOnCooldown st c t T d).pool := by
      rw [markOnCooldown_pool]; exact hc
    have hcr : (markOnCooldown st c t T d).cooldown (c, t) ≤ now := by
      rw [markOnCooldown_get_same]; exact hnow
    obtain ⟨idx, k2, h⟩ :=
      nextReadyClient_isSome_of_ready (markOnCooldown st c t T d) t now c hcm hcr
    obtain ⟨_, hr2, _, hmem2, _⟩ :=
      nextReadyClient_some_spec (markOnCooldown st c t T d) t now idx k2 h
    rw [markOnCooldown_pool] at hmem2
    by_cases hk2c : k2 = c
    · exact ⟨idx, hk2c ▸ h⟩
    · exact absurd hr2 (hothers k2 hmem2 hk2c)
  · intro now t2 ht2
    refine nextReadyClient_congr _ _ _ _ now (markOnCooldown_pool ..) (markOnCooldown_rotor ..)
      (fun key => markOnCooldown_get_other st c t key t2 T d ?_)
    intro he
    exact ht2 (congrArg Prod.snd he)

/-- Witness: two keys, c on cooldown for t from time 0 for 60 seconds. -/
theorem c3_witness :
    (∀ idx k,
        (nextReadyClient (markOnCooldown ⟨["a", "c"], fun _ => 0, 0⟩ "c" "m" 0 60) "m" 10).1 =
          some (idx, k) → k ≠ "c") ∧
    (markOnCooldown ⟨["a", "c"], fun _ => 0, 0⟩ "c" "m" 0 60).cooldown ("c", "m") ≤ 60 ∧
    (∃ idx,
        (nextReadyClient
            (markOnCooldown (markOnCooldown ⟨["a", "c"], fun _ => 0, 0⟩ "a" "m" 0 1000)
              "c" "m" 0 60) "m" 60).1 = some (idx, "c")) ∧
    ((nextReadyClient (markOnCooldown ⟨["a", "c"], fun _ => 0, 0⟩ "c" "m" 0 60) "m2" 0).1 =
        (nextReadyClient ⟨["a", "c"], fun _ => 0, 0⟩ "m2" 0).1) := by
  refine ⟨?_, ?_, ?_, ?_⟩
  · exact (c3_cooldown_floor ⟨["a", "c"], fun _ => 0, 0⟩ "c" "m" 60 0).1 10 (by norm_num)
  · exact (c3_cooldown_floor ⟨["a", "c"], fun _ => 0, 0⟩ "c" "m" 60 0).2.1 60 (by norm_num)
  · refine (c3_cooldown_floor (markOnCooldown ⟨["a", "c"], fun _ => 0, 0⟩ "a" "m" 0 1000)
      "c" "m" 60 0).2.2.1 60 (by norm_num) (by decide) ?_
    intro k hk hkc
    have hp : k ∈ ["a", "c"] := hk
    rcases List.mem_cons.mp hp with h | h
    · subst h
      have hg : (markOnCooldown
          (markOnCooldown (⟨["a", "c"], fun _ => 0, 0⟩ : ProviderState) "a" "m" 0 1000)
          "c" "m" 0 60).cooldown ("a", "m") = 1000 := by
        simp [markOnCooldown]
      rw [hg]
      norm_num
    · simp only [List.mem_singleton] at h
      exact absurd h hkc
  · exact ((c3_cooldown_floor ⟨["a", "c"], fun _ => 0, 0⟩ "c" "m" 60 0).2.2.2 0 "m2"
      (by decide)).1

theorem scanKeys_length (st : ProviderState) : (scanKeys st).length = st.pool.length := by
  simp [scanKeys, scanIdxs]

theorem scanKeys_eq_rotate (st : ProviderState) :
    scanKeys st = st.pool.rotate (st.rotor % st.pool.length) := by
  apply List.ext_get
  · rw [scanKeys_length, List.length_rotate]
  · intro i h1 h2
    rw [List.get_rotate]
    have hP : 0 < st.pool.length := by
      rw [List.length_rotate] at h2
      exact Nat.lt_of_le_of_lt (Nat.zero_le _) h2
    have hget : (scanKeys st).get ⟨i, h1⟩ = keyAt st ((st.rotor + i) % st.pool.length) := by
      simp only [scanKeys, scanIdxs]
      rw [List.get_map, List.get_map, List.get_range]
    rw [hget]
    unfold keyAt
    rw [List.getD_eq_get _ _ (Nat.mod_lt _ hP)]
    have h3 : (i + st.rotor % st.pool.length) % st.pool.length =
        (st.rotor + i) % st.pool.length := by
      calc (i + st.rotor % st.pool.length) % st.pool.length
          = (i + st.rotor) % st.pool.length := Nat.ModEq.add_left i (Nat.mod_modEq _ _)
        _ = (st.rotor + i) % st.pool.length := by rw [Nat.add_comm]
    congr 1
    apply Fin.ext
    exact h3.symm

theorem exists_first_ready_decomp {α : Type} (p : α → Bool) :
    ∀ q : List α, (∃ x ∈ q, p x = true) →
    ∃ u k v, q = u ++ k :: v ∧ (∀ x ∈ u, p x = false) ∧ p k = true ∧
      q.filter p = k :: v.filter p := by
  intro q
  induction q with
  | nil =>
    intro h
    obtain ⟨x, hx, _⟩ := h
    exact absurd hx (List.not_mem_nil x)
  | cons a rest ih =>
    intro h
    by_cases hpa : p a = true
    · exact ⟨[], a, rest, rfl, by simp, hpa, by simp [List.filter_cons, hpa]⟩
    · have hpa2 : p a = false := by
        cases hv : p a
        · rfl
        · exact absurd hv hpa
      have h2 : ∃ x ∈ rest, p x = true := by
        obtain ⟨x, hx, hpx⟩ := h
        rcases List.mem_cons.mp hx with h3 | h3
        · subst h3
          rw [hpa2] at hpx
          exact absurd hpx (by simp)
        · exact ⟨x, h3, hpx⟩
      obtain ⟨u, k, v, hq, hu, hk, hf⟩ := ih h2
      refine ⟨a :: u, k, v, by rw [hq, List.cons_append], ?_, hk, ?_⟩
      · intro x hx
        rcases List.mem_cons.mp hx with h3 | h3
        · subst h3
          exact hpa2
        · exact hu x h3
      · rw [List.filter_cons, hpa2]
        simp only [Bool.false_eq_true, if_false]
        exact hf

theorem nextReadyClient_first_ready (st : ProviderState) (modelName : String) (now : ℚ)
    (u v : List String) (k0 : String)
    (hq : scanKeys st = u ++ k0 :: v)
    (hu : ∀ x ∈ u, ¬ (st.cooldown (x, modelName) ≤ now))
    (hk : st.cooldown (k0, modelName) ≤ now) :
    nextReadyClient st modelName now =
      (some ((st.rotor + u.length) % st.pool.length, k0), 0,
        { st with
          rotor := (((st.rotor + u.length) % st.pool.length) + 1) % st.pool.length }) := by
  have hqlen : (scanKeys st).length = st.pool.length := scanKeys_length st
  have hj : u.length < st.pool.length := by
    rw [hq] at hqlen
    simp at hqlen
    omega
  have hjps : u.length < (scanIdxs st.pool.length st.rotor).length := by
    simpa [scanIdxs] using hj
  have hsplit : scanIdxs st.pool.length st.rotor =
      (scanIdxs st.pool.length st.rotor).take u.length ++
        (scanIdxs st.pool.length st.rotor).get ⟨u.length, hjps⟩ ::
          (scanIdxs st.pool.length st.rotor).drop (u.length + 1) := by
    conv_lhs => rw [← List.take_append_drop u.length (scanIdxs st.pool.length st.rotor)]
    rw [List.drop_eq_get_cons hjps]
  have htake : ((scanIdxs st.pool.length st.rotor).take u.length).map (keyAt st) = u := by
    have h1 : ((scanIdxs st.pool.length st.rotor).take u.length).map (keyAt st) =
        (scanKeys st).take u.length := (List.map_take ..)
    rw [h1, hq, List.take_left]
  have hdropq : (scanKeys st).drop u.length = k0 :: v := by
    rw [hq, List.drop_left]
  have hjq : u.length < (scanKeys st).length := by rw [hqlen]; exact hj
  have hgetq : (scanKeys st).get ⟨u.length, hjq⟩ = k0 := by
    have h2 := List.drop_eq_get_cons hjq
    rw [hdropq] at h2
    exact (List.cons.injEq .. ▸ h2.symm).1
  have hgetk : keyAt st ((scanIdxs st.pool.length st.rotor).get ⟨u.length, hjps⟩) = k0 := by
    have h3 : (scanKeys st).get ⟨u.length, hjq⟩ =
        keyAt st ((scanIdxs st.pool.length st.rotor).get ⟨u.length, hjps⟩) :=
      List.get_map _
    rw [← h3, hgetq]
  have hpos : (scanIdxs st.pool.length st.rotor).get ⟨u.length, hjps⟩ =
      (st.rotor + u.length) % st.pool.length := by
    simp [scanIdxs, List.get_map, List.get_range]
  have hfirst : (nrScan st modelName now (scanIdxs st.pool.length st.rotor) none).1 =
      some ((scanIdxs st.pool.length st.rotor).get ⟨u.length, hjps⟩,
        keyAt st ((scanIdxs st.pool.length st.rotor).get ⟨u.length, hjps⟩)) := by
    conv_lhs => rw [hsplit]
    apply nrScan_first
    · intro x hx
      have h4 : keyAt st x ∈
          ((scanIdxs st.pool.length st.rotor).take u.length).map (keyAt st) :=
        List.mem_map_of_mem _ hx
      rw [htake] at h4
      exact hu _ h4
    · rw [hgetk]
      exact hk
  rw [hgetk, hpos] at hfirst
  rcases hsc : nrScan st modelName now (scanIdxs st.pool.length st.rotor) none with ⟨cand, e⟩
  rw [hsc] at hfirst
  have hc : cand = some ((st.rotor + u.length) % st.pool.length, k0) := hfirst
  subst hc
  exact nextReadyClient_eq_of_scan_some st modelName now _ k0 e hsc


theorem rotorUpdate_pool (st : ProviderState) (r : ℕ) :
    ({ st with rotor := r } : ProviderState).pool = st.pool := rfl

theorem rotorUpdate_rotor (st : ProviderState) (r : ℕ) :
    ({ st with rotor := r } : ProviderState).rotor = r := rfl

theorem scanKeys_after_first (st : ProviderState) (u v : List String) (k0 : String)
    (hq : scanKeys st = u ++ k0 :: v) (hlen : u.length < st.pool.length) :
    scanKeys { st with
        rotor := (((st.rotor + u.length) % st.pool.length) + 1) % st.pool.length } =
      v ++ u ++ [k0] := by
  have hP : 0 < st.pool.length := Nat.lt_of_le_of_lt (Nat.zero_le _) hlen
  have h1 : scanKeys { st with
      rotor := (((st.rotor + u.length) % st.pool.length) + 1) % st.pool.length } =
      st.pool.rotate ((st.rotor + u.length) % st.pool.length + 1) := by
    rw [scanKeys_eq_rotate, rotorUpdate_pool, rotorUpdate_rotor, List.rotate_mod,
      List.rotate_mod]
  have h2 : st.pool.rotate ((st.rotor + u.length) % st.pool.length + 1) =
      st.pool.rotate (st.rotor + u.length + 1) := by
    rw [← List.rotate_mod st.pool ((st.rotor + u.length) % st.pool.length + 1),
      ← List.rotate_mod st.pool (st.rotor + u.length + 1)]
    congr 1
    exact Nat.ModEq.add_right 1 (Nat.mod_modEq (st.rotor + u.length) st.pool.length)
  have h3 : st.pool.rotate (st.rotor + u.length + 1) =
      (st.pool.rotate (st.rotor % st.pool.length)).rotate (u.length + 1) := by
    rw [List.rotate_rotate]
    rw [← List.rotate_mod st.pool (st.rotor % st.pool.length + (u.length + 1)),
      ← List.rotate_mod st.pool (st.rotor + u.length + 1)]
    congr 1
    have h4 : st.rotor % st.pool.length + (u.length + 1) ≡
        st.rotor + (u.length + 1) [MOD st.pool.length] :=
      Nat.ModEq.add_right (u.length + 1) (Nat.mod_modEq st.rotor st.pool.length)
    have h6 : (st.rotor % st.pool.length + (u.length + 1)) % st.pool.length =
        (st.rotor + u.length + 1) % st.pool.length := by
      calc (st.rotor % st.pool.length + (u.length + 1)) % st.pool.length
          = (st.rotor + (u.length + 1)) % st.pool.length := h4
        _ = (st.rotor + u.length + 1) % st.pool.length := by rw [Nat.add_assoc]
    exact h6.symm
  have h5 : st.pool.rotate (st.rotor % st.pool.length) = scanKeys st :=
    (scanKeys_eq_rotate st).symm
  rw [h1, h2, h3, h5, hq]
  have hle : u.length + 1 ≤ (u ++ k0 :: v).length := by
    simp
  rw [List.rotate_eq_drop_append_take hle]
  have hd : (u ++ k0 :: v).drop (u.length + 1) = v := by
    simp
  have ht : (u ++ k0 :: v).take (u.length + 1) = u ++ [k0] := by
    have h8 := @List.take_append _ u (k0 :: v) 1
    simpa using h8
  rw [hd, ht, List.append_assoc]

theorem iterNextReady_trace (modelName : String) (now : ℚ) :
    ∀ (n : ℕ) (st : ProviderState),
      n ≤ ((scanKeys st).filter (readyB st.cooldown modelName now)).length →
      (iterNextReady modelName now n st).1.map (Option.map Prod.snd) =
        (((scanKeys st).filter (readyB st.cooldown modelName now)).take n).map some := by
  intro n
  induction n with
  | zero =>
    intro st _
    simp [iterNextReady]
  | succ n ih =>
    intro st hn
    have hex : ∃ x ∈ scanKeys st, readyB st.cooldown modelName now x = true := by
      rcases hfq : (scanKeys st).filter (readyB st.cooldown modelName now) with _ | ⟨y, ys⟩
      · rw [hfq] at hn
        simp at hn
      · have hy : y ∈ (scanKeys st).filter (readyB st.cooldown modelName now) := by
          rw [hfq]
          simp
        obtain h := List.mem_filter.mp hy
        exact ⟨y, h.1, h.2⟩
    obtain ⟨u, k0, v, hq, hu, hk, hf⟩ :=
      exists_first_ready_decomp (readyB st.cooldown modelName now) (scanKeys st) hex
    have hlen : u.length < st.pool.length := by
      have h5 := scanKeys_length st
      rw [hq] at h5
      simp at h5
      omega
    have hu2 : ∀ x ∈ u, ¬ (st.cooldown (x, modelName) ≤ now) := by
      intro x hx
      have h6 := hu x hx
      simpa [readyB] using h6
    have hk2 : st.cooldown (k0, modelName) ≤ now := by
      simpa [readyB] using hk
    have hsel := nextReadyClient_first_ready st modelName now u v k0 hq hu2 hk2
    set st2 : ProviderState :=
      { st with rotor := (((st.rotor + u.length) % st.pool.length) + 1) % st.pool.length }
      with hst2
    have hsk2 : scanKeys st2 = v ++ u ++ [k0] := scanKeys_after_first st u v k0 hq hlen
    have hcd2 : st2.cooldown = st.cooldown := rfl
    have hfu : u.filter (readyB st.cooldown modelName now) = [] :=
      List.filter_eq_nil_iff.mpr (by
        intro a ha
        simp [hu a ha])
    have hfilter2 : (scanKeys st2).filter (readyB st2.cooldown modelName now) =
        v.filter (readyB st.cooldown modelName now) ++ [k0] := by
      rw [hsk2, hcd2, List.filter_append, List.filter_append, hfu]
      simp [List.filter_cons, hk]
    have hvlen : n ≤ (v.filter (readyB st.cooldown modelName now)).length := by
      rw [hf] at hn
      simpa using hn
    have hlen2 : n ≤ ((scanKeys st2).filter (readyB st2.cooldown modelName now)).length := by
      rw [hfilter2]
      simp
      omega
    have hih := ih st2 hlen2
    rw [hcd2] at hih
    simp only [iterNextReady]
    rw [hsel]
    simp only [List.map_cons]
    rw [hf]
    simp only [List.take_succ_cons, List.map_cons]
    congr 1
    rw [hih, hfilter2]
    congr 1
    exact List.take_append_of_le_length hvlen

/-- C9: with the ready set fixed, as many consecutive _next_ready_client
calls as there are ready keys return exactly the ready keys, each exactly
once, in rotor order starting from the current rotor position, and every call
advances the rotor to just past the returned index. -/
theorem c9_round_robin_fairness (st : ProviderState) (modelName : String) (now : ℚ)
    (hnodup : st.pool.Nodup) :
    (iterNextReady modelName now
        ((st.pool.filter (readyB st.cooldown modelName now)).length) st).1.map
        (Option.map Prod.snd) =
      ((scanKeys st).filter (readyB st.cooldown modelName now)).map some ∧
    ((scanKeys st).filter (readyB st.cooldown modelName now)).Nodup ∧
    (∀ k, k ∈ (scanKeys st).filter (readyB st.cooldown modelName now) ↔
      k ∈ st.pool ∧ readyB st.cooldown modelName now k = true) ∧
    (∀ (st2 : ProviderState) (idx : ℕ) (k : String),
        (nextReadyClient st2 modelName now).1 = some (idx, k) →
        ((nextReadyClient st2 modelName now).2.2).rotor = (idx + 1) % st2.pool.length) := by
  have hrp : List.Perm (scanKeys st) st.pool := by
    rw [scanKeys_eq_rotate]
    exact List.rotate_perm _ _
  have hperm := hrp.filter (readyB st.cooldown modelName now)
  refine ⟨?_, ?_, ?_, ?_⟩
  · have hN : (st.pool.filter (readyB st.cooldown modelName now)).length =
        ((scanKeys st).filter (readyB st.cooldown modelName now)).length :=
      hperm.length_eq.symm
    have htr := iterNextReady_trace modelName now
      ((st.pool.filter (readyB st.cooldown modelName now)).length) st (le_of_eq hN)
    rw [htr, hN, List.take_length]
  · have hnd : (scanKeys st).Nodup := by
      rw [scanKeys_eq_rotate]
      exact List.nodup_rotate.mpr hnodup
    exact hnd.filter _
  · intro k
    rw [List.mem_filter]
    constructor
    · rintro ⟨h1, h2⟩
      exact ⟨hrp.mem_iff.mp h1, h2⟩
    · rintro ⟨h1, h2⟩
      exact ⟨hrp.mem_iff.mpr h1, h2⟩
  · intro st2 idx k h
    obtain ⟨_, _, _, _, hstate⟩ := nextReadyClient_some_spec st2 modelName now idx k h
    rw [hstate]


/-- Witness: three ready keys with the rotor at 1 are served exactly once
each, in rotor order b, c, a. -/
theorem c9_witness :
    (iterNextReady "m" 0 ((c9State.pool.filter (readyB c9State.cooldown "m" 0)).length)
        c9State).1.map (Option.map Prod.snd) =
      ((scanKeys c9State).filter (readyB c9State.cooldown "m" 0)).map some ∧
    ((scanKeys c9State).filter (readyB c9State.cooldown "m" 0)).Nodup ∧
    (∀ k, k ∈ (scanKeys c9State).filter (readyB c9State.cooldown "m" 0) ↔
      k ∈ c9State.pool ∧ readyB c9State.cooldown "m" 0 k = true) ∧
    (∀ (st2 : ProviderState) (idx : ℕ) (k : String),
        (nextReadyClient st2 "m" 0).1 = some (idx, k) →
        ((nextReadyClient st2 "m" 0).2.2).rotor = (idx + 1) % st2.pool.length) :=
  c9_round_robin_fairness c9State "m" 0 (by decide)


theorem tryModel_exit_full (cfg : Config) (call : String → String → CallOutcome)
    (pinnedKey : Option String) (modelName : String) (fuel : ℕ) (st : ProviderState)
    (tried : List String) (now : ℚ) (lastExc : Option CallOutcome)
    (hlen : st.pool.length ≤ tried.length) :
    tryModel cfg call pinnedKey modelName (fuel + 1) st tried now lastExc =
      ⟨none, [], st, now, lastExc⟩ := by
  simp [tryModel, hlen]

theorem tryModel_exit_none_ready (cfg : Config) (call : String → String → CallOutcome)
    (pinnedKey : Option String) (modelName : String) (fuel : ℕ) (st : ProviderState)
    (tried : List String) (now : ℚ) (lastExc : Option CallOutcome)
    (hlen : ¬ st.pool.length ≤ tried.length)
    (hpin : pinnedActive pinnedKey tried = none)
    (hsel : (nextReadyClient st modelName now).1 = none) :
    tryModel cfg call pinnedKey modelName (fuel + 1) st tried now lastExc =
      ⟨none, [], (nextReadyClient st modelName now).2.2, now, lastExc⟩ := by
  simp only [tryModel, if_neg hlen, hpin]
  rw [hsel]

theorem tryModel_exit_already_tried (cfg : Config) (call : String → String → CallOutcome)
    (pinnedKey : Option String) (modelName : String) (fuel : ℕ) (st : ProviderState)
    (tried : List String) (now : ℚ) (lastExc : Option CallOutcome) (idx : ℕ) (k : String)
    (hlen : ¬ st.pool.length ≤ tried.length)
    (hpin : pinnedActive pinnedKey tried = none)
    (hsel : (nextReadyClient st modelName now).1 = some (idx, k))
    (hkt : k ∈ tried) :
    tryModel cfg call pinnedKey modelName (fuel + 1) st tried now lastExc =
      ⟨none, [], (nextReadyClient st modelName now).2.2, now, lastExc⟩ := by
  simp only [tryModel, if_neg hlen, hpin]
  rw [hsel]
  dsimp only
  rw [if_pos hkt]

theorem tryModel_fail_step (cfg : Config) (call : String → String → CallOutcome)
    (pinnedKey : Option String) (modelName : String) (fuel : ℕ) (st : ProviderState)
    (tried : List String) (now : ℚ) (lastExc : Option CallOutcome) (idx : ℕ) (k : String)
    (outc : CallOutcome)
    (hlen : ¬ st.pool.length ≤ tried.length)
    (hpin : pinnedActive pinnedKey tried = none)
    (hsel : (nextReadyClient st modelName now).1 = some (idx, k))
    (hkt : k ∉ tried)
    (hc : call k modelName = outc)
    (hnok : outc.isOk = false) :
    tryModel cfg call pinnedKey modelName (fuel + 1) st tried now lastExc =
      ⟨(tryModel cfg call pinnedKey modelName fuel
          (markOnCooldown (nextReadyClient st modelName now).2.2 k modelName now
            (cooldownSeconds cfg outc))
          (tried ++ [k]) now (some outc)).success,
        (modelName, k, now) ::
          (tryModel cfg call pinnedKey modelName fuel
            (markOnCooldown (nextReadyClient st modelName now).2.2 k modelName now
              (cooldownSeconds cfg outc))
            (tried ++ [k]) now (some outc)).attempts,
        (tryModel cfg call pinnedKey modelName fuel
          (markOnCooldown (nextReadyClient st modelName now).2.2 k modelName now
            (cooldownSeconds cfg outc))
          (tried ++ [k]) now (some outc)).state,
        (tryModel cfg call pinnedKey modelName fuel
          (markOnCooldown (nextReadyClient st modelName now).2.2 k modelName now
            (cooldownSeconds cfg outc))
          (tried ++ [k]) now (some outc)).now,
        (tryModel cfg call pinnedKey modelName fuel
          (markOnCooldown (nextReadyClient st modelName now).2.2 k modelName now
            (cooldownSeconds cfg outc))
          (tried ++ [k]) now (some outc)).lastExc⟩ := by
  cases outc with
  | ok t u => simp [CallOutcome.isOk] at hnok
  | resourceExhausted =>
    simp only [tryModel, if_neg hlen, hpin]
    rw [hsel]
    dsimp only
    rw [if_neg hkt, hc]
  | permissionDenied =>
    simp only [tryModel, if_neg hlen, hpin]
    rw [hsel]
    dsimp only
    rw [if_neg hkt, hc]
  | clientError c h4 hre =>
    simp only [tryModel, if_neg hlen, hpin]
    rw [hsel]
    dsimp only
    rw [if_neg hkt, hc]
  | serverError =>
    simp only [tryModel, if_neg hlen, hpin]
    rw [hsel]
    dsimp only
    rw [if_neg hkt, hc]
  | unknownExc =>
    simp only [tryModel, if_neg hlen, hpin]
    rw [hsel]
    dsimp only
    rw [if_neg hkt, hc]


theorem cooldownSeconds_pos (cfg : Config) (outc : CallOutcome)
    (hq : 0 < cfg.quotaCooldownSeconds) (ht : 0 < cfg.transientCooldownSeconds)
    (hnok : outc.isOk = false) : 0 < cooldownSeconds cfg outc := by
  cases outc with
  | ok t u => simp [CallOutcome.isOk] at hnok
  | resourceExhausted => exact hq
  | permissionDenied => exact hq
  | clientError c h4 hre =>
    simp only [cooldownSeconds]
    split_ifs <;> first | exact hq | exact ht
  | serverError => exact ht
  | unknownExc => exact ht

theorem tryModel_allFail (cfg : Config) (call : String → String → CallOutcome)
    (modelName : String)
    (hq : 0 < cfg.quotaCooldownSeconds) (ht : 0 < cfg.transientCooldownSeconds)
    (hfail : ∀ k, (call k modelName).isOk = false) :
    ∀ (fuel : ℕ) (st : ProviderState) (tried : List String) (now : ℚ)
      (lastExc : Option CallOutcome),
      st.pool.Nodup →
      tried.Nodup →
      (∀ k ∈ tried, k ∈ st.pool) →
      (∀ k ∈ st.pool, k ∉ tried → st.cooldown (k, modelName) ≤ now) →
      (∀ k ∈ tried, ¬ (st.cooldown (k, modelName) ≤ now)) →
      st.pool.length - tried.length < fuel →
      (tryModel cfg call none modelName fuel st tried now lastExc).success = none ∧
      (tryModel cfg call none modelName fuel st tried now lastExc).now = now ∧
      (tryModel cfg call none modelName fuel st tried now lastExc).attempts.length =
        st.pool.length - tried.length ∧
      ((tryModel cfg call none modelName fuel st tried now lastExc).attempts.map
        (fun a => a.2.1)).Nodup ∧
      (∀ a ∈ (tryModel cfg call none modelName fuel st tried now lastExc).attempts,
        a.1 = modelName ∧ a.2.1 ∈ st.pool ∧ a.2.1 ∉ tried ∧ a.2.2 = now) ∧
      (tryModel cfg call none modelName fuel st tried now lastExc).state.pool = st.pool ∧
      (∀ k m2, m2 ≠ modelName →
        (tryModel cfg call none modelName fuel st tried now lastExc).state.cooldown (k, m2) =
          st.cooldown (k, m2)) ∧
      (tryModel cfg call none modelName fuel st tried now lastExc).lastExc =
        (((tryModel cfg call none modelName fuel st tried now lastExc).attempts.getLast?).map
          (fun a => some (call a.2.1 a.1))).getD lastExc := by
  intro fuel
  induction fuel with
  | zero =>
    intro st tried now lastExc _ _ _ _ _ hfuel
    omega
  | succ fuel ih =>
    intro st tried now lastExc hpool htried hsub hready hcool hfuel
    by_cases hlen : st.pool.length ≤ tried.length
    · have h0 : st.pool.length - tried.length = 0 := by omega
      rw [tryModel_exit_full cfg call none modelName fuel st tried now lastExc hlen]
      exact ⟨rfl, rfl, by simp [h0], by simp, by simp, rfl, fun k m2 _ => rfl, by simp⟩
    · have hlt : tried.length < st.pool.length := Nat.lt_of_not_le hlen
      have hexists : ∃ k ∈ st.pool, k ∉ tried := by
        by_contra hno
        push_neg at hno
        have h1 : st.pool.toFinset ⊆ tried.toFinset := by
          intro x hx
          exact List.mem_toFinset.mpr (hno x (List.mem_toFinset.mp hx))
        have h2 := Finset.card_le_card h1
        rw [List.toFinset_card_of_nodup hpool, List.toFinset_card_of_nodup htried] at h2
        omega
      obtain ⟨k0, hk0p, hk0t⟩ := hexists
      obtain ⟨idx, k, hsel⟩ :=
        nextReadyClient_isSome_of_ready st modelName now k0 hk0p (hready k0 hk0p hk0t)
      obtain ⟨hkey, hkr, hidx, hkp, hstate⟩ :=
        nextReadyClient_some_spec st modelName now idx k hsel
      have hkt : k ∉ tried := fun hmem => hcool k hmem hkr
      have hstep := tryModel_fail_step cfg call none modelName fuel st tried now lastExc idx k
        (call k modelName) hlen rfl hsel hkt rfl (hfail k)
      set st3 : ProviderState :=
        markOnCooldown (nextReadyClient st modelName now).2.2 k modelName now
          (cooldownSeconds cfg (call k modelName)) with hst3
      -- facts about st3
      have hpool3 : st3.pool = st.pool := by
        rw [hst3, markOnCooldown_pool, hstate]
      have hcd3same : st3.cooldown (k, modelName) = now + cooldownSeconds cfg (call k modelName) := by
        rw [hst3, markOnCooldown_get_same]
      have hcd3other : ∀ k2 m2, (k2, m2) ≠ (k, modelName) →
          st3.cooldown (k2, m2) = st.cooldown (k2, m2) := by
        intro k2 m2 hne
        rw [hst3, markOnCooldown_get_other _ _ _ _ _ _ _ hne]
        rw [hstate]
      have hpos := cooldownSeconds_pos cfg (call k modelName) hq ht (hfail k)
      -- IH hypotheses
      have htried2 : (tried ++ [k]).Nodup := by
        rw [List.nodup_append]
        exact ⟨htried, List.nodup_singleton k, by simpa using hkt⟩
      have hsub2 : ∀ k2 ∈ tried ++ [k], k2 ∈ st3.pool := by
        intro k2 hk2
        rw [hpool3]
        rcases List.mem_append.mp hk2 with h | h
        · exact hsub k2 h
        · rw [List.mem_singleton.mp h]
          exact hkp
      have hready2 : ∀ k2 ∈ st3.pool, k2 ∉ tried ++ [k] → st3.cooldown (k2, modelName) ≤ now := by
        intro k2 hk2 hk2t
        rw [hpool3] at hk2
        have hne : k2 ≠ k := by
          intro he
          exact hk2t (by rw [he]; simp)
        rw [hcd3other k2 modelName (by simp [hne])]
        exact hready k2 hk2 (fun hmem => hk2t (List.mem_append.mpr (Or.inl hmem)))
      have hcool2 : ∀ k2 ∈ tried ++ [k], ¬ (st3.cooldown (k2, modelName) ≤ now) := by
        intro k2 hk2
        rcases List.mem_append.mp hk2 with h | h
        · have hne : k2 ≠ k := by
            intro he
            rw [he] at h
            exact hkt h
          rw [hcd3other k2 modelName (by simp [hne])]
          exact hcool k2 h
        · rw [List.mem_singleton.mp h, hcd3same]
          intro hle
          linarith
      have hfuel2 : st3.pool.length - (tried ++ [k]).length < fuel := by
        rw [hpool3]
        simp only [List.length_append, List.length_singleton]
        omega
      obtain ⟨ih1, ih2, ih3, ih4, ih5, ih6, ih7, ih8⟩ :=
        ih st3 (tried ++ [k]) now (some (call k modelName)) (by rw [hpool3]; exact hpool)
          htried2 hsub2 hready2 hcool2 hfuel2
      rw [hstep]
      -- now read off each conjunct
      refine ⟨ih1, ih2, ?_, ?_, ?_, by rw [ih6, hpool3], ?_, ?_⟩
      · simp only [List.length_cons, ih3, hpool3]
        simp only [List.length_append, List.length_singleton]
        omega
      · simp only [List.map_cons]
        rw [List.nodup_cons]
        constructor
        · intro hmem
          obtain ⟨a, ha, hak⟩ := List.mem_map.mp hmem
          obtain ⟨_, _, hnt, _⟩ := ih5 a ha
          exact hnt (by rw [hak]; simp)
        · exact ih4
      · intro a ha
        rcases List.mem_cons.mp ha with h | h
        · rw [h]
          exact ⟨rfl, hkp, hkt, rfl⟩
        · obtain ⟨h1, h2, h3, h4⟩ := ih5 a h
          rw [hpool3] at h2
          exact ⟨h1, h2, fun hmem => h3 (List.mem_append.mpr (Or.inl hmem)), h4⟩
      · intro k2 m2 hm2
        rw [ih7 k2 m2 hm2, hcd3other k2 m2 (by simp [hm2])]
      · rw [ih8]
        rcases hatt : (tryModel cfg call none modelName fuel st3 (tried ++ [k]) now
            (some (call k modelName))).attempts with _ | ⟨a0, arest⟩
        · simp
        · simp [List.getLast?_cons_cons]
          rw [← hatt]
          rcases hl : (tryModel cfg call none modelName fuel st3 (tried ++ [k]) now
              (some (call k modelName))).attempts.getLast? with _ | a2
          · rw [hatt] at hl
            simp [List.getLast?] at hl
          · simp


theorem execChain_cons_of_none (cfg : Config) (call : String → String → CallOutcome)
    (pinnedKey : Option String) (modelName : String) (restModels : List String)
    (fuel : ℕ) (st : ProviderState) (now : ℚ) (lastExc : Option CallOutcome)
    (h : (tryModel cfg call pinnedKey modelName fuel st [] now lastExc).success = none) :
    execChain cfg call pinnedKey (modelName :: restModels) fuel st now lastExc =
      ⟨(execChain cfg call pinnedKey restModels fuel
          (tryModel cfg call pinnedKey modelName fuel st [] now lastExc).state
          (tryModel cfg call pinnedKey modelName fuel st [] now lastExc).now
          (tryModel cfg call pinnedKey modelName fuel st [] now lastExc).lastExc).success,
        (tryModel cfg call pinnedKey modelName fuel st [] now lastExc).attempts ++
          (execChain cfg call pinnedKey restModels fuel
            (tryModel cfg call pinnedKey modelName fuel st [] now lastExc).state
            (tryModel cfg call pinnedKey modelName fuel st [] now lastExc).now
            (tryModel cfg call pinnedKey modelName fuel st [] now lastExc).lastExc).attempts,
        (execChain cfg call pinnedKey restModels fuel
          (tryModel cfg call pinnedKey modelName fuel st [] now lastExc).state
          (tryModel cfg call pinnedKey modelName fuel st [] now lastExc).now
          (tryModel cfg call pinnedKey modelName fuel st [] now lastExc).lastExc).state,
        (execChain cfg call pinnedKey restModels fuel
          (tryModel cfg call pinnedKey modelName fuel st [] now lastExc).state
          (tryModel cfg call pinnedKey modelName fuel st [] now lastExc).now
          (tryModel cfg call pinnedKey modelName fuel st [] now lastExc).lastExc).now,
        (execChain cfg call pinnedKey restModels fuel
          (tryModel cfg call pinnedKey modelName fuel st [] now lastExc).state
          (tryModel cfg call pinnedKey modelName fuel st [] now lastExc).now
          (tryModel cfg call pinnedKey modelName fuel st [] now lastExc).lastExc).lastExc⟩ := by
  simp only [execChain]
  rw [h]

theorem execChain_cons_of_some (cfg : Config) (call : String → String → CallOutcome)
    (pinnedKey : Option String) (modelName : String) (restModels : List String)
    (fuel : ℕ) (st : ProviderState) (now : ℚ) (lastExc : Option CallOutcome)
    (s : (String × Option (ℕ × ℕ × ℕ)) × String)
    (h : (tryModel cfg call pinnedKey modelName fuel st [] now lastExc).success = some s) :
    execChain cfg call pinnedKey (modelName :: restModels) fuel st now lastExc =
      ⟨some s, (tryModel cfg call pinnedKey modelName fuel st [] now lastExc).attempts,
        (tryModel cfg call pinnedKey modelName fuel st [] now lastExc).state,
        (tryModel cfg call pinnedKey modelName fuel st [] now lastExc).now,
        (tryModel cfg call pinnedKey modelName fuel st [] now lastExc).lastExc⟩ := by
  simp only [execChain]
  rw [h]

theorem execChain_allFail (cfg : Config) (call : String → String → CallOutcome)
    (hq : 0 < cfg.quotaCooldownSeconds) (ht : 0 < cfg.transientCooldownSeconds)
    (hfail : ∀ k m, (call k m).isOk = false) :
    ∀ (chain : List String) (fuel : ℕ) (st : ProviderState) (now : ℚ)
      (lastExc : Option CallOutcome),
      chain.Nodup →
      st.pool.Nodup →
      (∀ m ∈ chain, ∀ k ∈ st.pool, st.cooldown (k, m) ≤ now) →
      st.pool.length < fuel →
      (execChain cfg call none chain fuel st now lastExc).success = none ∧
      (execChain cfg call none chain fuel st now lastExc).now = now ∧
      (execChain cfg call none chain fuel st now lastExc).attempts.length =
        chain.length * st.pool.length ∧
      (∀ m, (((execChain cfg call none chain fuel st now lastExc).attempts.filter
        (fun a => a.1 = m)).map (fun a => a.2.1)).Nodup) ∧
      (∀ a ∈ (execChain cfg call none chain fuel st now lastExc).attempts, a.1 ∈ chain) ∧
      (execChain cfg call none chain fuel st now lastExc).state.pool = st.pool ∧
      (∀ k m2, m2 ∉ chain →
        (execChain cfg call none chain fuel st now lastExc).state.cooldown (k, m2) =
          st.cooldown (k, m2)) ∧
      (execChain cfg call none chain fuel st now lastExc).lastExc =
        (((execChain cfg call none chain fuel st now lastExc).attempts.getLast?).map
          (fun a => some (call a.2.1 a.1))).getD lastExc := by
  intro chain
  induction chain with
  | nil =>
    intro fuel st now lastExc _ _ _ _
    exact ⟨rfl, rfl, by simp [execChain], by simp [execChain], by simp [execChain], rfl,
      fun k m2 _ => rfl, by simp [execChain]⟩
  | cons m rest ihc =>
    intro fuel st now lastExc hchain hpool hfresh hfuel
    have hchain2 := List.nodup_cons.mp hchain
    obtain ⟨t1, t2, t3, t4, t5, t6, t7, t8⟩ :=
      tryModel_allFail cfg call m hq ht (fun k => hfail k m) fuel st [] now lastExc hpool
        List.nodup_nil (by simp) (fun k hk _ => hfresh m (by simp) k hk) (by simp)
        (by simpa using hfuel)
    set r1 := tryModel cfg call none m fuel st [] now lastExc with hr1
    obtain ⟨c1, c2, c3, c4, c5, c6, c7, c8⟩ :=
      ihc fuel r1.state r1.now r1.lastExc hchain2.2 (by rw [t6]; exact hpool)
        (by
          intro m2 hm2 k hk
          rw [t6] at hk
          rw [t2, t7 k m2 (by
            intro he
            rw [he] at hm2
            exact hchain2.1 hm2)]
          exact hfresh m2 (by simp [hm2]) k hk)
        (by rw [t6]; exact hfuel)
    set r2 := execChain cfg call none rest fuel r1.state r1.now r1.lastExc with hr2
    rw [execChain_cons_of_none cfg call none m rest fuel st now lastExc t1]
    refine ⟨c1, by rw [c2, t2], ?_, ?_, ?_, by rw [c6, t6], ?_, ?_⟩
    · simp only [List.length_append]
      rw [c3, t3, t6]
      simp
      ring
    · intro m2
      rw [List.filter_append, List.map_append]
      by_cases hm2 : m2 = m
      · subst hm2
        have hA1 : r1.attempts.filter (fun a => a.1 = m2) = r1.attempts :=
          List.filter_eq_self.mpr (by
            intro a ha
            simp [(t5 a ha).1])
        have hA2 : r2.attempts.filter (fun a => a.1 = m2) = [] :=
          List.filter_eq_nil_iff.mpr (by
            intro a ha
            have := c5 a ha
            simp only [decide_eq_true_eq]
            intro he
            rw [he] at this
            exact hchain2.1 this)
        rw [hA1, hA2]
        simpa using t4
      · have hA1 : r1.attempts.filter (fun a => a.1 = m2) = [] :=
          List.filter_eq_nil_iff.mpr (by
            intro a ha
            simp only [decide_eq_true_eq]
            intro he
            exact hm2 (by rw [← he, (t5 a ha).1]))
        rw [hA1]
        simpa using c4 m2
    · intro a ha
      rcases List.mem_append.mp ha with h | h
      · rw [(t5 a h).1]
        simp
      · have := c5 a h
        simp [this]
    · intro k m2 hm2
      have hm2m : m2 ≠ m := by
        intro he
        exact hm2 (by simp [he])
      have hm2rest : m2 ∉ rest := by
        intro he
        exact hm2 (by simp [he])
      rw [c7 k m2 hm2rest, t7 k m2 hm2m]
    · rcases hA2 : r2.attempts with _ | ⟨a0, arest⟩
      · have c8n : r2.lastExc = r1.lastExc := by
          rw [hA2] at c8
          simpa using c8
        rw [List.append_nil, c8n]
        exact t8
      · rw [hA2] at c8
        have hne : (a0 :: arest : List Attempt) ≠ [] := by simp
        rw [List.getLast?_append_of_ne_nil _ hne, c8]
        rcases hgl : (a0 :: arest : List Attempt).getLast? with _ | x
        · have hs := List.getLast?_isSome.mpr hne
          rw [hgl] at hs
          simp at hs
        · simp


theorem executeWith_eq_of_none (cfg : Config) (call : String → String → CallOutcome)
    (chains : String → List String) (preferredModel : String) (pinnedKey : Option String)
    (fuel : ℕ) (st : ProviderState) (now : ℚ)
    (h : (execChain cfg call pinnedKey (preferredModel :: chains preferredModel) fuel st now
        none).success = none) :
    executeWithRetriesAndFallbacks cfg call chains preferredModel pinnedKey fuel st now =
      ⟨Except.error (execChain cfg call pinnedKey (preferredModel :: chains preferredModel)
          fuel st now none).lastExc,
        (execChain cfg call pinnedKey (preferredModel :: chains preferredModel) fuel st now
          none).attempts,
        (execChain cfg call pinnedKey (preferredModel :: chains preferredModel) fuel st now
          none).state,
        none,
        (execChain cfg call pinnedKey (preferredModel :: chains preferredModel) fuel st now
          none).now⟩ := by
  simp only [executeWithRetriesAndFallbacks]
  rw [h]

theorem executeWith_attempts_eq (cfg : Config) (call : String → String → CallOutcome)
    (chains : String → List String) (preferredModel : String) (pinnedKey : Option String)
    (fuel : ℕ) (st : ProviderState) (now : ℚ) :
    (executeWithRetriesAndFallbacks cfg call chains preferredModel pinnedKey fuel st now).attempts =
      (execChain cfg call pinnedKey (preferredModel :: chains preferredModel) fuel st now
        none).attempts := by
  simp only [executeWithRetriesAndFallbacks]
  rcases h : (execChain cfg call pinnedKey (preferredModel :: chains preferredModel) fuel st now
      none).success with _ | ⟨res, key⟩
  · rfl
  · rfl

/-- C1: with a fresh cooldown state, no sticky pin and every transport call
failing, one orchestration call performs exactly (chain length) × (pool size)
transport attempts before raising, and never attempts the same api key twice
for the same model. -/
theorem c1_cascade_exhaustion_bound (cfg : Config) (call : String → String → CallOutcome)
    (chains : String → List String) (preferredModel : String) (fuel : ℕ)
    (st : ProviderState) (now : ℚ)
    (hq : 0 < cfg.quotaCooldownSeconds) (ht : 0 < cfg.transientCooldownSeconds)
    (hchain : (preferredModel :: chains preferredModel).Nodup)
    (hpool : st.pool.Nodup)
    (hfresh : ∀ m ∈ preferredModel :: chains preferredModel, ∀ k ∈ st.pool,
      st.cooldown (k, m) ≤ now)
    (hfail : ∀ k m, (call k m).isOk = false)
    (hfuel : st.pool.length < fuel) :
    (∃ e, (executeWithRetriesAndFallbacks cfg call chains preferredModel none fuel st
        now).outcome = Except.error e) ∧
    (executeWithRetriesAndFallbacks cfg call chains preferredModel none fuel st
        now).attempts.length =
      (preferredModel :: chains preferredModel).length * st.pool.length ∧
    (∀ m, (((executeWithRetriesAndFallbacks cfg call chains preferredModel none fuel st
        now).attempts.filter (fun a => a.1 = m)).map (fun a => a.2.1)).Nodup) := by
  obtain ⟨c1, c2, c3, c4, c5, c6, c7, c8⟩ :=
    execChain_allFail cfg call hq ht hfail (preferredModel :: chains preferredModel) fuel st
      now none hchain hpool hfresh hfuel
  rw [executeWith_eq_of_none cfg call chains preferredModel none fuel st now c1]
  exact ⟨⟨_, rfl⟩, c3, c4⟩

/-- Witness: two fresh keys, a chain of two models, every call failing with a
rate-limit error: the cascade raises after exactly 2 × 2 attempts, each key
tried once per model. -/
theorem c1_witness :
    (∃ e, (executeWithRetriesAndFallbacks defaultConfig
        (fun _ _ => CallOutcome.clientError (some 429) true true)
        (fun _ => ["m2"]) "m1" none 5 ⟨["ka", "kb"], fun _ => 0, 0⟩ 0).outcome =
      Except.error e) ∧
    (executeWithRetriesAndFallbacks defaultConfig
        (fun _ _ => CallOutcome.clientError (some 429) true true)
        (fun _ => ["m2"]) "m1" none 5 ⟨["ka", "kb"], fun _ => 0, 0⟩ 0).attempts.length =
      ("m1" :: ["m2"]).length * (["ka", "kb"] : List String).length ∧
    (∀ m, ((((executeWithRetriesAndFallbacks defaultConfig
        (fun _ _ => CallOutcome.clientError (some 429) true true)
        (fun _ => ["m2"]) "m1" none 5 ⟨["ka", "kb"], fun _ => 0, 0⟩ 0).attempts).filter
          (fun a => a.1 = m)).map (fun a => a.2.1)).Nodup) :=
  c1_cascade_exhaustion_bound defaultConfig
    (fun _ _ => CallOutcome.clientError (some 429) true true) (fun _ => ["m2"]) "m1" 5
    ⟨["ka", "kb"], fun _ => 0, 0⟩ 0 (by norm_num [defaultConfig]) (by norm_num [defaultConfig])
    (by decide) (by decide) (fun m _ k _ => le_refl 0) (fun _ _ => rfl) (by decide)


theorem generate_eq_of_error (cfg : Config) (call : String → String → CallOutcome)
    (chains : String → List String) (preferredModel : String) (pinnedKey : Option String)
    (fuel : ℕ) (st : ProviderState) (now : ℚ) (e : Option CallOutcome)
    (h : (executeWithRetriesAndFallbacks cfg call chains preferredModel pinnedKey fuel st
        now).outcome = Except.error e) :
    generate cfg call chains preferredModel pinnedKey fuel st now =
      (serviceBusyMessage, none) := by
  simp only [generate]
  rw [h]

theorem tryModel_empty_pool (cfg : Config) (call : String → String → CallOutcome)
    (pinnedKey : Option String) (modelName : String) (fuel : ℕ) (st : ProviderState)
    (tried : List String) (now : ℚ) (lastExc : Option CallOutcome)
    (hp : st.pool = []) :
    tryModel cfg call pinnedKey modelName fuel st tried now lastExc =
      ⟨none, [], st, now, lastExc⟩ := by
  cases fuel with
  | zero => rfl
  | succ fuel =>
    exact tryModel_exit_full cfg call pinnedKey modelName fuel st tried now lastExc
      (by rw [hp]; simp)

theorem execChain_empty_pool (cfg : Config) (call : String → String → CallOutcome)
    (pinnedKey : Option String) :
    ∀ (chain : List String) (fuel : ℕ) (st : ProviderState) (now : ℚ)
      (lastExc : Option CallOutcome), st.pool = [] →
      execChain cfg call pinnedKey chain fuel st now lastExc =
        ⟨none, [], st, now, lastExc⟩ := by
  intro chain
  induction chain with
  | nil =>
    intro fuel st now lastExc _
    rfl
  | cons m rest ih =>
    intro fuel st now lastExc hp
    have he := tryModel_empty_pool cfg call pinnedKey m fuel st [] now lastExc hp
    have hs : (tryModel cfg call pinnedKey m fuel st [] now lastExc).success = none := by
      rw [he]
    rw [execChain_cons_of_none cfg call pinnedKey m rest fuel st now lastExc hs, he]
    have hr := ih fuel st now lastExc hp
    rw [hr]
    rfl

/-- C5: when every call fails on every model of the chain, the orchestration
raises the failure observed on the very last attempt; with an empty pool (no
attempt observed) it raises the generic cascade-exhausted error; and in both
cases the public generate entry point converts the exception into the safe
user-facing message with no usage data. -/
theorem c5_exhaustion_raises_last_failure_and_generate_sanitizes (cfg : Config)
    (call : String → String → CallOutcome) (chains : String → List String)
    (preferredModel : String) (fuel : ℕ) (st : ProviderState) (now : ℚ)
    (hq : 0 < cfg.quotaCooldownSeconds) (ht : 0 < cfg.transientCooldownSeconds)
    (hchain : (preferredModel :: chains preferredModel).Nodup)
    (hpool : st.pool.Nodup)
    (hfresh : ∀ m ∈ preferredModel :: chains preferredModel, ∀ k ∈ st.pool,
      st.cooldown (k, m) ≤ now)
    (hfail : ∀ k m, (call k m).isOk = false)
    (hfuel : st.pool.length < fuel)
    (hpne : st.pool ≠ []) :
    (∃ a, (executeWithRetriesAndFallbacks cfg call chains preferredModel none fuel st
        now).attempts.getLast? = some a ∧
      (executeWithRetriesAndFallbacks cfg call chains preferredModel none fuel st
        now).outcome = Except.error (some (call a.2.1 a.1))) ∧
    generate cfg call chains preferredModel none fuel st now = (serviceBusyMessage, none) ∧
    (∀ st2 : ProviderState, st2.pool = [] →
      (executeWithRetriesAndFallbacks cfg call chains preferredModel none fuel st2
        now).outcome = Except.error none ∧
      generate cfg call chains preferredModel none fuel st2 now =
        (serviceBusyMessage, none)) := by
  obtain ⟨c1, c2, c3, c4, c5, c6, c7, c8⟩ :=
    execChain_allFail cfg call hq ht hfail (preferredModel :: chains preferredModel) fuel st
      now none hchain hpool hfresh hfuel
  have hew := executeWith_eq_of_none cfg call chains preferredModel none fuel st now c1
  have hlenpos :
      0 < (execChain cfg call none (preferredModel :: chains preferredModel) fuel st now
        none).attempts.length := by
    rw [c3]
    have hp1 : 0 < st.pool.length := List.length_pos.mpr hpne
    simp only [List.length_cons]
    positivity
  have hne : (execChain cfg call none (preferredModel :: chains preferredModel) fuel st now
      none).attempts ≠ [] := by
    intro h0
    rw [h0] at hlenpos
    simp at hlenpos
  have hsome := List.getLast?_isSome.mpr hne
  rcases hgl : (execChain cfg call none (preferredModel :: chains preferredModel) fuel st now
      none).attempts.getLast? with _ | a
  · rw [hgl] at hsome
    simp at hsome
  · have hlast : (execChain cfg call none (preferredModel :: chains preferredModel) fuel st
        now none).lastExc = some (call a.2.1 a.1) := by
      rw [c8, hgl]
      simp
    refine ⟨⟨a, ?_, ?_⟩, ?_, ?_⟩
    · rw [hew]
      exact hgl
    · rw [hew]
      simp only []
      rw [hlast]
    · exact generate_eq_of_error cfg call chains preferredModel none fuel st now _
        (by rw [hew])
    · intro st2 hp2
      have hec := execChain_empty_pool cfg call none
        (preferredModel :: chains preferredModel) fuel st2 now none hp2
      have hs2 : (execChain cfg call none (preferredModel :: chains preferredModel) fuel st2
          now none).success = none := by rw [hec]
      have hew2 := executeWith_eq_of_none cfg call chains preferredModel none fuel st2 now hs2
      have hout : (executeWithRetriesAndFallbacks cfg call chains preferredModel none fuel
          st2 now).outcome = Except.error none := by
        rw [hew2]
        simp only []
        rw [hec]
      exact ⟨hout,
        generate_eq_of_error cfg call chains preferredModel none fuel st2 now none hout⟩

/-- Witness: two fresh keys failing with a server error on a two-model chain:
the raised error is the last attempt's server error and generate returns the
safe message; a pool-less state raises the generic exhaustion error. -/
theorem c5_witness :
    (∃ a, (executeWithRetriesAndFallbacks defaultConfig (fun _ _ => CallOutcome.serverError)
        (fun _ => ["m2"]) "m1" none 5 ⟨["ka", "kb"], fun _ => 0, 0⟩ 0).attempts.getLast? =
          some a ∧
      (executeWithRetriesAndFallbacks defaultConfig (fun _ _ => CallOutcome.serverError)
        (fun _ => ["m2"]) "m1" none 5 ⟨["ka", "kb"], fun _ => 0, 0⟩ 0).outcome =
        Except.error (some ((fun (_ _ : String) => CallOutcome.serverError) a.2.1 a.1))) ∧
    generate defaultConfig (fun _ _ => CallOutcome.serverError) (fun _ => ["m2"]) "m1" none 5
      ⟨["ka", "kb"], fun _ => 0, 0⟩ 0 = (serviceBusyMessage, none) ∧
    (∀ st2 : ProviderState, st2.pool = [] →
      (executeWithRetriesAndFallbacks defaultConfig (fun _ _ => CallOutcome.serverError)
        (fun _ => ["m2"]) "m1" none 5 st2 0).outcome = Except.error none ∧
      generate defaultConfig (fun _ _ => CallOutcome.serverError) (fun _ => ["m2"]) "m1" none
        5 st2 0 = (serviceBusyMessage, none)) :=
  c5_exhaustion_raises_last_failure_and_generate_sanitizes defaultConfig
    (fun _ _ => CallOutcome.serverError) (fun _ => ["m2"]) "m1" 5
    ⟨["ka", "kb"], fun _ => 0, 0⟩ 0 (by norm_num [defaultConfig]) (by norm_num [defaultConfig])
    (by decide) (by decide) (fun m _ k _ => le_refl 0) (fun _ _ => rfl) (by decide) (by decide)


theorem pinnedActive_some (p : String) (tried : List String) (hne : p ≠ "")
    (hnt : p ∉ tried) : pinnedActive (some p) tried = some p := by
  simp [pinnedActive, hne, hnt]

theorem pinnedActive_of_tried (p : String) (tried : List String) (hnt : p ∈ tried) :
    pinnedActive (some p) tried = none := by
  simp [pinnedActive, hnt]

theorem tryModel_pinned_ready_ok (cfg : Config) (call : String → String → CallOutcome)
    (p modelName : String) (fuel : ℕ) (st : ProviderState) (tried : List String) (now : ℚ)
    (lastExc : Option CallOutcome) (text : String) (usage : Option (ℕ × ℕ × ℕ))
    (hlen : ¬ st.pool.length ≤ tried.length)
    (hpin : pinnedActive (some p) tried = some p)
    (hmem : p ∈ st.pool)
    (hce : st.cooldown (p, modelName) ≤ now)
    (hc : call p modelName = CallOutcome.ok text usage) :
    tryModel cfg call (some p) modelName (fuel + 1) st tried now lastExc =
      ⟨some ((text, usage), p), [(modelName, p, now)], st, now, lastExc⟩ := by
  simp only [tryModel, if_neg hlen, hpin]
  rw [if_pos hmem, if_pos hce, hc]

theorem tryModel_pinned_ready_fail (cfg : Config) (call : String → String → CallOutcome)
    (p modelName : String) (fuel : ℕ) (st : ProviderState) (tried : List String) (now : ℚ)
    (lastExc : Option CallOutcome) (outc : CallOutcome)
    (hlen : ¬ st.pool.length ≤ tried.length)
    (hpin : pinnedActive (some p) tried = some p)
    (hmem : p ∈ st.pool)
    (hce : st.cooldown (p, modelName) ≤ now)
    (hc : call p modelName = outc)
    (hnok : outc.isOk = false) :
    tryModel cfg call (some p) modelName (fuel + 1) st tried now lastExc =
      ⟨(tryModel cfg call (some p) modelName fuel
          (markOnCooldown st p modelName now (cooldownSeconds cfg outc))
          (tried ++ [p]) now (some outc)).success,
        (modelName, p, now) ::
          (tryModel cfg call (some p) modelName fuel
            (markOnCooldown st p modelName now (cooldownSeconds cfg outc))
            (tried ++ [p]) now (some outc)).attempts,
        (tryModel cfg call (some p) modelName fuel
          (markOnCooldown st p modelName now (cooldownSeconds cfg outc))
          (tried ++ [p]) now (some outc)).state,
        (tryModel cfg call (some p) modelName fuel
          (markOnCooldown st p modelName now (cooldownSeconds cfg outc))
          (tried ++ [p]) now (some outc)).now,
        (tryModel cfg call (some p) modelName fuel
          (markOnCooldown st p modelName now (cooldownSeconds cfg outc))
          (tried ++ [p]) now (some outc)).lastExc⟩ := by
  cases outc with
  | ok t u => simp [CallOutcome.isOk] at hnok
  | resourceExhausted =>
    simp only [tryModel, if_neg hlen, hpin]
    rw [if_pos hmem, if_pos hce, hc]
  | permissionDenied =>
    simp only [tryModel, if_neg hlen, hpin]
    rw [if_pos hmem, if_pos hce, hc]
  | clientError c h4 hre =>
    simp only [tryModel, if_neg hlen, hpin]
    rw [if_pos hmem, if_pos hce, hc]
  | serverError =>
    simp only [tryModel, if_neg hlen, hpin]
    rw [if_pos hmem, if_pos hce, hc]
  | unknownExc =>
    simp only [tryModel, if_neg hlen, hpin]
    rw [if_pos hmem, if_pos hce, hc]

theorem tryModel_pinned_skip (cfg : Config) (call : String → String → CallOutcome)
    (p modelName : String) (fuel : ℕ) (st : ProviderState) (tried : List String) (now : ℚ)
    (lastExc : Option CallOutcome)
    (hlen : ¬ st.pool.length ≤ tried.length)
    (hpin : pinnedActive (some p) tried = some p)
    (hmem : p ∈ st.pool)
    (hce : ¬ st.cooldown (p, modelName) ≤ now)
    (hw : 5 < max 0 (st.cooldown (p, modelName) - now)) :
    tryModel cfg call (some p) modelName (fuel + 1) st tried now lastExc =
      tryModel cfg call (some p) modelName fuel st (tried ++ [p]) now lastExc := by
  simp only [tryModel, if_neg hlen, hpin]
  rw [if_pos hmem, if_neg hce, if_pos hw]

theorem tryModel_pinned_sleep (cfg : Config) (call : String → String → CallOutcome)
    (p modelName : String) (fuel : ℕ) (st : ProviderState) (tried : List String) (now : ℚ)
    (lastExc : Option CallOutcome)
    (hlen : ¬ st.pool.length ≤ tried.length)
    (hpin : pinnedActive (some p) tried = some p)
    (hmem : p ∈ st.pool)
    (hce : ¬ st.cooldown (p, modelName) ≤ now)
    (hw : ¬ 5 < max 0 (st.cooldown (p, modelName) - now)) :
    tryModel cfg call (some p) modelName (fuel + 1) st tried now lastExc =
      tryModel cfg call (some p) modelName fuel st tried (now + 1 / 2) lastExc := by
  simp only [tryModel, if_neg hlen, hpin]
  rw [if_pos hmem, if_neg hce, if_neg hw]

theorem tryModel_ok_step (cfg : Config) (call : String → String → CallOutcome)
    (pinnedKey : Option String) (modelName : String) (fuel : ℕ) (st : ProviderState)
    (tried : List String) (now : ℚ) (lastExc : Option CallOutcome) (idx : ℕ) (k : String)
    (text : String) (usage : Option (ℕ × ℕ × ℕ))
    (hlen : ¬ st.pool.length ≤ tried.length)
    (hpin : pinnedActive pinnedKey tried = none)
    (hsel : (nextReadyClient st modelName now).1 = some (idx, k))
    (hkt : k ∉ tried)
    (hc : call k modelName = CallOutcome.ok text usage) :
    tryModel cfg call pinnedKey modelName (fuel + 1) st tried now lastExc =
      ⟨some ((text, usage), k), [(modelName, k, now)],
        (nextReadyClient st modelName now).2.2, now, lastExc⟩ := by
  simp only [tryModel, if_neg hlen, hpin]
  rw [hsel]
  dsimp only
  rw [if_neg hkt, hc]

theorem nextReadyClient_none_of_all_unready (st : ProviderState) (modelName : String)
    (now : ℚ) (h : ∀ k ∈ st.pool, ¬ (st.cooldown (k, modelName) ≤ now)) :
    (nextReadyClient st modelName now).1 = none := by
  rcases hc : (nextReadyClient st modelName now).1 with _ | ⟨idx, k⟩
  · rfl
  · obtain ⟨_, hr, _, hmem, _⟩ := nextReadyClient_some_spec st modelName now idx k hc
    exact absurd hr (h k hmem)

theorem execChain_cons_attempts (cfg : Config) (call : String → String → CallOutcome)
    (pinnedKey : Option String) (modelName : String) (restModels : List String)
    (fuel : ℕ) (st : ProviderState) (now : ℚ) (lastExc : Option CallOutcome) :
    ∃ tail, (execChain cfg call pinnedKey (modelName :: restModels) fuel st now
        lastExc).attempts =
      (tryModel cfg call pinnedKey modelName fuel st [] now lastExc).attempts ++ tail := by
  rcases hs : (tryModel cfg call pinnedKey modelName fuel st [] now lastExc).success
    with _ | ⟨res, key⟩
  · exact ⟨_, by
      rw [execChain_cons_of_none cfg call pinnedKey modelName restModels fuel st now
        lastExc hs]⟩
  · refine ⟨[], ?_⟩
    rw [execChain_cons_of_some cfg call pinnedKey modelName restModels fuel st now lastExc
      _ hs]
    simp

theorem tryModel_pinned_ready_head (cfg : Config) (call : String → String → CallOutcome)
    (p modelName : String) (fuel : ℕ) (st : ProviderState) (tried : List String) (now : ℚ)
    (lastExc : Option CallOutcome)
    (hlen : ¬ st.pool.length ≤ tried.length)
    (hpin : pinnedActive (some p) tried = some p)
    (hmem : p ∈ st.pool)
    (hce : st.cooldown (p, modelName) ≤ now) :
    ∃ tail, (tryModel cfg call (some p) modelName (fuel + 1) st tried now lastExc).attempts =
      (modelName, p, now) :: tail := by
  cases hc : call p modelName with
  | ok text usage =>
    exact ⟨[], by
      rw [tryModel_pinned_ready_ok cfg call p modelName fuel st tried now lastExc text usage
        hlen hpin hmem hce hc]⟩
  | resourceExhausted =>
    exact ⟨_, by
      rw [tryModel_pinned_ready_fail cfg call p modelName fuel st tried now lastExc _ hlen
        hpin hmem hce hc rfl]⟩
  | permissionDenied =>
    exact ⟨_, by
      rw [tryModel_pinned_ready_fail cfg call p modelName fuel st tried now lastExc _ hlen
        hpin hmem hce hc rfl]⟩
  | clientError c h4 hre =>
    exact ⟨_, by
      rw [tryModel_pinned_ready_fail cfg call p modelName fuel st tried now lastExc _ hlen
        hpin hmem hce hc rfl]⟩
  | serverError =>
    exact ⟨_, by
      rw [tryModel_pinned_ready_fail cfg call p modelName fuel st tried now lastExc _ hlen
        hpin hmem hce hc rfl]⟩
  | unknownExc =>
    exact ⟨_, by
      rw [tryModel_pinned_ready_fail cfg call p modelName fuel st tried now lastExc _ hlen
        hpin hmem hce hc rfl]⟩

theorem tryModel_nonpinned_head (cfg : Config) (call : String → String → CallOutcome)
    (pinnedKey : Option String) (modelName : String) (fuel : ℕ) (st : ProviderState)
    (tried : List String) (now : ℚ) (lastExc : Option CallOutcome) (idx : ℕ) (k : String)
    (hlen : ¬ st.pool.length ≤ tried.length)
    (hpin : pinnedActive pinnedKey tried = none)
    (hsel : (nextReadyClient st modelName now).1 = some (idx, k))
    (hkt : k ∉ tried) :
    ∃ tail, (tryModel cfg call pinnedKey modelName (fuel + 1) st tried now lastExc).attempts =
      (modelName, k, now) :: tail := by
  cases hc : call k modelName with
  | ok text usage =>
    exact ⟨[], by
      rw [tryModel_ok_step cfg call pinnedKey modelName fuel st tried now lastExc idx k text
        usage hlen hpin hsel hkt hc]⟩
  | resourceExhausted =>
    exact ⟨_, by
      rw [tryModel_fail_step cfg call pinnedKey modelName fuel st tried now lastExc idx k _
        hlen hpin hsel hkt hc rfl]⟩
  | permissionDenied =>
    exact ⟨_, by
      rw [tryModel_fail_step cfg call pinnedKey modelName fuel st tried now lastExc idx k _
        hlen hpin hsel hkt hc rfl]⟩
  | clientError c h4 hre =>
    exact ⟨_, by
      rw [tryModel_fail_step cfg call pinnedKey modelName fuel st tried now lastExc idx k _
        hlen hpin hsel hkt hc rfl]⟩
  | serverError =>
    exact ⟨_, by
      rw [tryModel_fail_step cfg call pinnedKey modelName fuel st tried now lastExc idx k _
        hlen hpin hsel hkt hc rfl]⟩
  | unknownExc =>
    exact ⟨_, by
      rw [tryModel_fail_step cfg call pinnedKey modelName fuel st tried now lastExc idx k _
        hlen hpin hsel hkt hc rfl]⟩


theorem tryModel_pinned_wait (cfg : Config) (call : String → String → CallOutcome)
    (p modelName : String) (hne : p ≠ "") :
    ∀ (fuel : ℕ) (st : ProviderState) (now : ℚ) (lastExc : Option CallOutcome),
      p ∈ st.pool →
      1 ≤ fuel →
      (now < st.cooldown (p, modelName) →
        st.cooldown (p, modelName) - now ≤ 5 ∧
        2 * (st.cooldown (p, modelName) - now) + 1 ≤ (fuel : ℚ)) →
      ∃ t tail,
        (tryModel cfg call (some p) modelName fuel st [] now lastExc).attempts =
          (modelName, p, t) :: tail ∧
        (st.cooldown (p, modelName) ≤ now → t = now) ∧
        (now < st.cooldown (p, modelName) →
          st.cooldown (p, modelName) ≤ t ∧ t < st.cooldown (p, modelName) + 1 / 2) := by
  intro fuel
  induction fuel with
  | zero =>
    intro st now lastExc _ h1 _
    omega
  | succ fuel ih =>
    intro st now lastExc hmem _h1 h2
    have hP : 0 < st.pool.length := List.length_pos.mpr (by
      intro he
      rw [he] at hmem
      exact absurd hmem (List.not_mem_nil p))
    have hlen : ¬ st.pool.length ≤ ([] : List String).length := by
      simp only [List.length_nil, Nat.le_zero]
      omega
    have hpin : pinnedActive (some p) [] = some p :=
      pinnedActive_some p [] hne (List.not_mem_nil p)
    by_cases hce : st.cooldown (p, modelName) ≤ now
    · obtain ⟨tail, htail⟩ := tryModel_pinned_ready_head cfg call p modelName fuel st [] now
        lastExc hlen hpin hmem hce
      refine ⟨now, tail, htail, fun _ => rfl, fun hlt => absurd hce (not_le.mpr hlt)⟩
    · have hlt : now < st.cooldown (p, modelName) := not_le.mp hce
      obtain ⟨hw5, hfq⟩ := h2 hlt
      have hwmax : ¬ 5 < max 0 (st.cooldown (p, modelName) - now) := by
        rw [max_eq_right (by linarith)]
        linarith
      rw [tryModel_pinned_sleep cfg call p modelName fuel st [] now lastExc hlen hpin hmem
        hce hwmax]
      have hfq1 : (1 : ℚ) < (fuel : ℚ) + 1 := by
        have hpos : 0 < st.cooldown (p, modelName) - now := by linarith
        have : (2 : ℚ) * (st.cooldown (p, modelName) - now) + 1 ≤ (fuel : ℚ) + 1 := by
          push_cast at hfq
          linarith
        linarith
      have hfge1 : 1 ≤ fuel := by
        by_contra hf0
        push_neg at hf0
        interval_cases fuel
        simp at hfq1
      obtain ⟨t, tail, htail, hteq, htlt⟩ := ih st (now + 1 / 2) lastExc hmem hfge1 (by
        intro hlt2
        constructor
        · linarith
        · push_cast at hfq ⊢
          linarith)
      refine ⟨t, tail, htail, fun hle => absurd hle hce, fun _ => ?_⟩
      by_cases hce2 : st.cooldown (p, modelName) ≤ now + 1 / 2
      · have ht2 := hteq hce2
        constructor
        · linarith [hteq hce2]
        · rw [ht2]
          linarith
      · exact htlt (not_le.mp hce2)


/-- C4: with a sticky pinned key set, a call whose pin is cooldown-free uses
the pin on its very first attempt regardless of the rotor; a pin cooling down
longer than the 5 s threshold is skipped for the current model only (the next
attempt comes from the rotor, and the pin is still used on the next model of
the chain); a pin cooling down at most 5 s is waited for in 0.5 s sleeps and
then used, the first attempt happening within half a second of the cooldown
expiry. -/
theorem c4_sticky_priority (cfg : Config) (call : String → String → CallOutcome)
    (chains : String → List String) :
    (∀ (preferredModel p : String) (fuel : ℕ) (st : ProviderState) (now : ℚ),
        p ≠ "" → p ∈ st.pool → st.cooldown (p, preferredModel) ≤ now → 1 ≤ fuel →
        ∃ tail, (executeWithRetriesAndFallbacks cfg call chains preferredModel (some p) fuel
          st now).attempts = (preferredModel, p, now) :: tail) ∧
    (∀ (preferredModel p : String) (fuel : ℕ) (st : ProviderState) (now : ℚ) (idx : ℕ)
        (k : String),
        p ≠ "" → p ∈ st.pool → 5 < st.cooldown (p, preferredModel) - now →
        (nextReadyClient st preferredModel now).1 = some (idx, k) → 2 ≤ fuel →
        k ≠ p ∧
        ∃ tail, (executeWithRetriesAndFallbacks cfg call chains preferredModel (some p) fuel
          st now).attempts = (preferredModel, k, now) :: tail) ∧
    (∀ (preferredModel p m2 : String) (rest2 : List String) (fuel : ℕ) (st : ProviderState)
        (now : ℚ),
        p ≠ "" → p ∈ st.pool → chains preferredModel = m2 :: rest2 →
        5 < st.cooldown (p, preferredModel) - now →
        (∀ k ∈ st.pool, ¬ (st.cooldown (k, preferredModel) ≤ now)) →
        st.cooldown (p, m2) ≤ now → 2 ≤ fuel →
        ∃ tail, (executeWithRetriesAndFallbacks cfg call chains preferredModel (some p) fuel
          st now).attempts = (m2, p, now) :: tail) ∧
    (∀ (preferredModel p : String) (fuel : ℕ) (st : ProviderState) (now : ℚ),
        p ≠ "" → p ∈ st.pool → now < st.cooldown (p, preferredModel) →
        st.cooldown (p, preferredModel) - now ≤ 5 →
        2 * (st.cooldown (p, preferredModel) - now) + 1 ≤ (fuel : ℚ) →
        ∃ t tail, (executeWithRetriesAndFallbacks cfg call chains preferredModel (some p)
            fuel st now).attempts = (preferredModel, p, t) :: tail ∧
          st.cooldown (p, preferredModel) ≤ t ∧
          t < st.cooldown (p, preferredModel) + 1 / 2) := by
  refine ⟨?_, ?_, ?_, ?_⟩
  · intro preferredModel p fuel st now hne hmem hce hfuel
    obtain ⟨f, rfl⟩ : ∃ f, fuel = f + 1 := ⟨fuel - 1, by omega⟩
    have hP : 0 < st.pool.length := List.length_pos.mpr (by
      intro he
      rw [he] at hmem
      exact absurd hmem (List.not_mem_nil p))
    have hlen : ¬ st.pool.length ≤ ([] : List String).length := by
      simp only [List.length_nil, Nat.le_zero]
      omega
    have hpin := pinnedActive_some p [] hne (List.not_mem_nil p)
    obtain ⟨tail, htail⟩ := tryModel_pinned_ready_head cfg call p preferredModel f st [] now
      none hlen hpin hmem hce
    obtain ⟨tail2, htail2⟩ := execChain_cons_attempts cfg call (some p) preferredModel
      (chains preferredModel) (f + 1) st now none
    rw [executeWith_attempts_eq, htail2, htail]
    exact ⟨tail ++ tail2, by simp⟩
  · intro preferredModel p fuel st now idx k hne hmem hw hsel hfuel
    obtain ⟨f, rfl⟩ : ∃ f, fuel = f + 2 := ⟨fuel - 2, by omega⟩
    obtain ⟨hkey, hkr, hidx, hkp, _⟩ := nextReadyClient_some_spec st preferredModel now idx
      k hsel
    have hcep : ¬ st.cooldown (p, preferredModel) ≤ now := not_le.mpr (by linarith)
    have hknp : k ≠ p := by
      intro he
      rw [he] at hkr
      exact hcep hkr
    have hP : 0 < st.pool.length := List.length_pos.mpr (by
      intro he
      rw [he] at hmem
      exact absurd hmem (List.not_mem_nil p))
    have h2le : 2 ≤ st.pool.length := by
      rcases hp : st.pool with _ | ⟨x, l⟩
      · rw [hp] at hmem
        exact absurd hmem (List.not_mem_nil p)
      · rcases l with _ | ⟨y, l2⟩
        · rw [hp] at hmem hkp
          have hpx := List.mem_singleton.mp hmem
          have hkx := List.mem_singleton.mp hkp
          exact absurd (hkx.trans hpx.symm) hknp
        · simp only [List.length_cons]
          omega
    have hlen : ¬ st.pool.length ≤ ([] : List String).length := by
      simp only [List.length_nil, Nat.le_zero]
      omega
    have hlen1 : ¬ st.pool.length ≤ ([p] : List String).length := by
      simp only [List.length_singleton]
      omega
    have hpin := pinnedActive_some p [] hne (List.not_mem_nil p)
    have hwmax : 5 < max 0 (st.cooldown (p, preferredModel) - now) := by
      rw [max_eq_right (by linarith)]
      exact hw
    have hskip := tryModel_pinned_skip cfg call p preferredModel (f + 1) st [] now none hlen
      hpin hmem hcep hwmax
    simp only [List.nil_append] at hskip
    have hpin2 := pinnedActive_of_tried p [p] (by simp)
    obtain ⟨tail, htail⟩ := tryModel_nonpinned_head cfg call (some p) preferredModel f st
      [p] now none idx k hlen1 hpin2 hsel (by simp [hknp])
    obtain ⟨tail2, htail2⟩ := execChain_cons_attempts cfg call (some p) preferredModel
      (chains preferredModel) (f + 2) st now none
    refine ⟨hknp, tail ++ tail2, ?_⟩
    rw [executeWith_attempts_eq, htail2]
    have hstep : (tryModel cfg call (some p) preferredModel (f + 2) st [] now none).attempts
        = (preferredModel, k, now) :: tail := by
      rw [show f + 2 = (f + 1) + 1 from rfl, hskip, htail]
    rw [hstep]
    simp
  · intro preferredModel p m2 rest2 fuel st now hne hmem hchainEq hw hall hce2 hfuel
    obtain ⟨f, rfl⟩ : ∃ f, fuel = f + 2 := ⟨fuel - 2, by omega⟩
    have hP : 0 < st.pool.length := List.length_pos.mpr (by
      intro he
      rw [he] at hmem
      exact absurd hmem (List.not_mem_nil p))
    have hlen : ¬ st.pool.length ≤ ([] : List String).length := by
      simp only [List.length_nil, Nat.le_zero]
      omega
    have hpin := pinnedActive_some p [] hne (List.not_mem_nil p)
    have hcep : ¬ st.cooldown (p, preferredModel) ≤ now := not_le.mpr (by linarith)
    have hwmax : 5 < max 0 (st.cooldown (p, preferredModel) - now) := by
      rw [max_eq_right (by linarith)]
      exact hw
    have hselnone := nextReadyClient_none_of_all_unready st preferredModel now hall
    have hm1 : tryModel cfg call (some p) preferredModel (f + 2) st [] now none =
        ⟨none, [], st, now, none⟩ := by
      rw [show f + 2 = (f + 1) + 1 from rfl,
        tryModel_pinned_skip cfg call p preferredModel (f + 1) st [] now none hlen hpin
          hmem hcep hwmax]
      simp only [List.nil_append]
      by_cases hPl : st.pool.length ≤ ([p] : List String).length
      · exact tryModel_exit_full cfg call (some p) preferredModel f st [p] now none hPl
      · rw [tryModel_exit_none_ready cfg call (some p) preferredModel f st [p] now none hPl
          (pinnedActive_of_tried p [p] (by simp)) hselnone,
          nextReadyClient_none_state st preferredModel now hselnone]
    have hm1s : (tryModel cfg call (some p) preferredModel (f + 2) st [] now none).success =
        none := by rw [hm1]
    obtain ⟨tailm2, htailm2⟩ := tryModel_pinned_ready_head cfg call p m2 (f + 1) st [] now
      none hlen hpin hmem hce2
    obtain ⟨tail2, htail2⟩ := execChain_cons_attempts cfg call (some p) m2 rest2 (f + 2) st
      now none
    refine ⟨tailm2 ++ tail2, ?_⟩
    rw [executeWith_attempts_eq, hchainEq,
      execChain_cons_of_none cfg call (some p) preferredModel (m2 :: rest2) (f + 2) st now
        none hm1s, hm1]
    simp only [List.nil_append]
    rw [htail2, show f + 2 = (f + 1) + 1 from rfl, htailm2]
    simp
  · intro preferredModel p fuel st now hne hmem hlt hw5 hfq
    have hfge1 : 1 ≤ fuel := by
      by_contra hf0
      push_neg at hf0
      interval_cases fuel
      have hpos : 0 < st.cooldown (p, preferredModel) - now := by linarith
      simp only [Nat.cast_zero] at hfq
      linarith
    obtain ⟨t, tail, htail, _, htlt⟩ := tryModel_pinned_wait cfg call p preferredModel hne
      fuel st now none hmem hfge1 (fun _ => ⟨hw5, hfq⟩)
    obtain ⟨tail2, htail2⟩ := execChain_cons_attempts cfg call (some p) preferredModel
      (chains preferredModel) fuel st now none
    obtain ⟨h1, h2⟩ := htlt hlt
    refine ⟨t, tail ++ tail2, ?_, h1, h2⟩
    rw [executeWith_attempts_eq, htail2, htail]
    simp


/-- Witness: the four sticky scenarios at concrete states: a free pin is used
first even with the rotor elsewhere; a pin cooling 100 s is skipped in favour
of the rotor candidate; the skipped pin is still used first on the next model
of the chain; a pin cooling 3 s is waited for and attempted within half a
second of expiry. -/
theorem c4_witness :
    (∃ tail, (executeWithRetriesAndFallbacks defaultConfig
        (fun _ _ => CallOutcome.ok "r" none) (fun _ => ["m2"]) "m1" (some "p") 1
        ⟨["q", "p"], fun _ => 0, 5⟩ 0).attempts = ("m1", "p", 0) :: tail) ∧
    ("q" ≠ "p" ∧
      ∃ tail, (executeWithRetriesAndFallbacks defaultConfig
        (fun _ _ => CallOutcome.ok "r" none) (fun _ => ["m2"]) "m1" (some "p") 2
        c4bState 0).attempts = ("m1", "q", 0) :: tail) ∧
    (∃ tail, (executeWithRetriesAndFallbacks defaultConfig
        (fun _ _ => CallOutcome.ok "r" none) (fun _ => ["m2"]) "m1" (some "p") 2
        c4cState 0).attempts = ("m2", "p", 0) :: tail) ∧
    (∃ t tail, (executeWithRetriesAndFallbacks defaultConfig
        (fun _ _ => CallOutcome.ok "r" none) (fun _ => ["m2"]) "m1" (some "p") 10
        c4dState 0).attempts = ("m1", "p", t) :: tail ∧
      c4dState.cooldown ("p", "m1") ≤ t ∧ t < c4dState.cooldown ("p", "m1") + 1 / 2) := by
  refine ⟨?_, ?_, ?_, ?_⟩
  · exact (c4_sticky_priority defaultConfig (fun _ _ => CallOutcome.ok "r" none)
      (fun _ => ["m2"])).1 "m1" "p" 1 ⟨["q", "p"], fun _ => 0, 5⟩ 0 (by decide) (by decide)
      (le_refl 0) (le_refl 1)
  · exact (c4_sticky_priority defaultConfig (fun _ _ => CallOutcome.ok "r" none)
      (fun _ => ["m2"])).2.1 "m1" "p" 2 c4bState 0 0 "q" (by decide) (by decide)
      (by norm_num [show c4bState.cooldown ("p", "m1") = 100 from rfl])
      rfl (le_refl 2)
  · exact (c4_sticky_priority defaultConfig (fun _ _ => CallOutcome.ok "r" none)
      (fun _ => ["m2"])).2.2.1 "m1" "p" "m2" [] 2 c4cState 0 (by decide) (by decide) rfl
      (by norm_num [show c4cState.cooldown ("p", "m1") = 100 from rfl])
      (by
        intro k hk
        rw [show c4cState.cooldown (k, "m1") = 100 from rfl]
        norm_num)
      (by norm_num [show c4cState.cooldown ("p", "m2") = 0 from rfl]) (le_refl 2)
  · exact (c4_sticky_priority defaultConfig (fun _ _ => CallOutcome.ok "r" none)
      (fun _ => ["m2"])).2.2.2 "m1" "p" 10 c4dState 0 (by decide) (by decide)
      (by norm_num [show c4dState.cooldown ("p", "m1") = 3 from rfl])
      (by norm_num [show c4dState.cooldown ("p", "m1") = 3 from rfl])
      (by
        rw [show c4dState.cooldown ("p", "m1") = 3 from rfl]
        norm_num)

end EgoSpec
